import Mathlib

/-!
# PDF-MultiTool — verification of the matching-and-merge core

Shallow embedding of the matching/merge/compress core of the
PDF-MultiTool repository (TypeScript/Electron):

* `src/main/services/merge-service.ts` — prefix vocabulary, code regex,
  `extractNotificationCode`, `extractZepbCode`, `canonicalCode`,
  `buildDict`;
* `src/main/services/fs-utils.ts` — `fileMarkedProcessed`;
* `src/main/ipc/merge.ts` — the `merge-pdfs` handler (pairing, merge
  loop, cancellation, registry step, outer catch) and `cancel-merge`;
* `src/main/services/pdf-service.ts` — `compressFiles` loop;
* `src/main/ipc/compress.ts` — `compress-files` handler / `cancel-compress`.

Modelling conventions:

* JavaScript strings are Lean `String` / `List Char`.  `toUpperCase` /
  `toLowerCase` are modelled for the character ranges that actually occur
  (ASCII letters and the Russian Cyrillic block, `ё`/`Ё`); all other
  characters are fixed — this is exactly what the source's inputs use.
* Regular expressions are compiled by hand into executable matching
  functions with JavaScript semantics (leftmost match, ordered
  alternation, greedy quantifiers, `i` flag as case folding, `\d` and
  `\w` ASCII-only, `\b` relative to ASCII word characters, `.` excluding
  line terminators).
* The filesystem is a snapshot tree (`FSEntry`): a file carries its name
  and its `mtime` as `Option Nat` (`none` models a failing `stat`); an
  unreadable directory is, as in the source's `catch`, indistinguishable
  from an empty one.
* External collaborators (pdf merge, registry DOCX writer, Ghostscript)
  are oracles passed as function parameters; the process-wide
  cancellation flags are modelled by the sequence of values the loop's
  checkpoints observe (`cancelAt : Nat → Bool`), which is monotone during
  one run because the source only resets the flag at run start.
* `attempted` / `progressEvents` fields are ghost instrumentation that
  mirror control flow (which loop bodies ran, which progress events were
  sent); they alter no computed data.
-/

/-! ## JavaScript character model -/

/-- `String.prototype.toUpperCase`, restricted to ASCII letters and the
Cyrillic block used by the program (`а`–`я` → `А`–`Я`, `ё` → `Ё`);
identity elsewhere. -/
def jsUpperChar (c : Char) : Char :=
  if 'a' ≤ c ∧ c ≤ 'z' then Char.ofNat (c.toNat - 32)
  else if 'а' ≤ c ∧ c ≤ 'я' then Char.ofNat (c.toNat - 32)
  else if c = 'ё' then 'Ё'
  else c

/-- `String.prototype.toLowerCase` on the same character ranges. -/
def jsLowerChar (c : Char) : Char :=
  if 'A' ≤ c ∧ c ≤ 'Z' then Char.ofNat (c.toNat + 32)
  else if 'А' ≤ c ∧ c ≤ 'Я' then Char.ofNat (c.toNat + 32)
  else if c = 'Ё' then 'ё'
  else c

def jsUpperStr (s : String) : String := String.mk (s.data.map jsUpperChar)

def jsLowerStr (s : String) : String := String.mk (s.data.map jsLowerChar)

/-- Case-insensitive character comparison (the regex `i` flag). -/
def charsEqCI (a b : Char) : Bool := jsUpperChar a = jsUpperChar b

/-- Regex `\d` (ASCII digits only in JavaScript). -/
def jsIsDigit (c : Char) : Bool := '0' ≤ c ∧ c ≤ '9'

/-- Regex `\w` (ASCII word characters; Cyrillic letters are *not* word
characters in JavaScript). -/
def jsIsWordChar (c : Char) : Bool :=
  ('a' ≤ c ∧ c ≤ 'z') ∨ ('A' ≤ c ∧ c ≤ 'Z') ∨ ('0' ≤ c ∧ c ≤ '9') ∨ c = '_'

/-- Regex `\s` (the whitespace characters that can occur in filenames). -/
def jsIsWs (c : Char) : Bool :=
  c = ' ' ∨ c = '\t' ∨ c = '\n' ∨ c = '\x0b' ∨ c = '\x0c' ∨ c = '\r'

/-- Regex `.` matches anything but a line terminator. -/
def jsIsNonLineTerm (c : Char) : Bool :=
  ¬ (c = '\n' ∨ c = '\r' ∨ c = Char.ofNat 0x2028 ∨ c = Char.ofNat 0x2029)

/-! ## List-of-characters utilities -/

/-- Exact prefix test on character lists. -/
def listPrefixB : List Char → List Char → Bool
  | [], _ => true
  | _ :: _, [] => false
  | a :: ps, b :: ss => a = b && listPrefixB ps ss

/-- Case-insensitive prefix test (regex `i` flag). -/
def listPrefixCI : List Char → List Char → Bool
  | [], _ => true
  | _ :: _, [] => false
  | a :: ps, b :: ss => charsEqCI a b && listPrefixCI ps ss

/-- Exact substring test (`String.prototype.includes`). -/
def listContainsB (pat : List Char) : List Char → Bool
  | [] => pat.isEmpty
  | s@(_ :: rest) => listPrefixB pat s || listContainsB pat rest

/-! ## Node `path` model (posix behaviour, as in `path.basename` /
`path.dirname` / `path.join`) -/

/-- `path.basename(p)`: drop trailing separators, then take the final
segment. -/
def pathBasename (p : String) : String :=
  String.mk (((p.data.reverse.dropWhile (· = '/')).takeWhile (· ≠ '/')).reverse)

/-- `path.dirname(p)`: Node's algorithm — scan from the end skipping
trailing separators and then the basename; everything before the
separator found there is the directory (`"."` / `"/"` edge cases as in
Node). -/
def pathDirname (p : String) : String :=
  if p = "" then "." else
  let hasRoot := p.data.head? = some '/'
  let rev2 := ((p.data.reverse.dropWhile (· = '/')).dropWhile (· ≠ '/'))
  match rev2 with
  | [] => if hasRoot then "/" else "."
  | _ :: rest => if rest = [] then "/" else String.mk rest.reverse

/-- `String.prototype.endsWith`, computed on the character lists (kernel
reducible, unlike `String.endsWith`). -/
def strEndsWith (s suff : String) : Bool := listPrefixB suff.data.reverse s.data.reverse

/-- `path.basename(p, ext)`: additionally strip `ext` when it is a proper
suffix of the basename. -/
def pathBasenameExt (p ext : String) : String :=
  let b := pathBasename p
  if strEndsWith b ext ∧ ext.data.length < b.data.length then
    String.mk (b.data.take (b.data.length - ext.data.length))
  else b

/-- `path.join(dir, name)` for the shapes the scanner produces (plain
directory paths, separator-free entry names). -/
def pathJoin (d n : String) : String :=
  if d = "" ∨ d = "." then n else d ++ "/" ++ n

/-! ## Code extraction (`merge-service.ts`)

```
const PREFIXES = ['СК', 'УА', 'СППК', 'СПД', 'РВС', 'ПУ', 'П', 'ГЗУ', 'ПТП', 'ТТП', 'НА'];
const CODE_REGEX = new RegExp(`(${...join('|')})-\\d+(?:\\.\\d+)?`, 'i');
```
-/

def PREFIXES : List String :=
  ["СК", "УА", "СППК", "СПД", "РВС", "ПУ", "П", "ГЗУ", "ПТП", "ТТП", "НА"]

/-- Match `-\d+(?:\.\d+)?` at the head of `s`, returning the matched
characters (greedy digit runs; the optional decimal group is skipped when
no digit follows the dot). -/
def matchNumTail (s : List Char) : Option (List Char) :=
  match s with
  | '-' :: rest =>
    let ds := rest.takeWhile jsIsDigit
    if ds.isEmpty then none
    else
      match rest.drop ds.length with
      | '.' :: rest3 =>
        let ds2 := rest3.takeWhile jsIsDigit
        if ds2.isEmpty then some ('-' :: ds) else some ('-' :: ds ++ '.' :: ds2)
      | _ => some ('-' :: ds)
  | _ => none

/-- Try the alternation `(СК|УА|…|НА)` at the current position, in source
order; an alternative succeeds only when `-\d+(?:\.\d+)?` follows
(JavaScript backtracks to the next alternative otherwise).  Returns the
matched characters of the input. -/
def matchCodeAtAux : List String → List Char → Option (List Char)
  | [], _ => none
  | p :: ps, s =>
    if listPrefixCI p.data s then
      match matchNumTail (s.drop p.data.length) with
      | some t => some (s.take p.data.length ++ t)
      | none => matchCodeAtAux ps s
    else matchCodeAtAux ps s

def matchCodeAt (s : List Char) : Option (List Char) := matchCodeAtAux PREFIXES s

/-- `filename.match(CODE_REGEX)` — leftmost match of the code pattern. -/
def codeRegexMatch : List Char → Option (List Char)
  | [] => none
  | s@(_ :: rest) =>
    match matchCodeAt s with
    | some m => some m
    | none => codeRegexMatch rest

/-- `filename.match(/\d+(?:\.\d+)?/)` — leftmost bare number, with an
optional decimal part. -/
def firstNumberMatch : List Char → Option (List Char)
  | [] => none
  | c :: rest =>
    if jsIsDigit c then
      let ds := (c :: rest).takeWhile jsIsDigit
      some (match (c :: rest).drop ds.length with
        | '.' :: rest3 =>
          let ds2 := rest3.takeWhile jsIsDigit
          if ds2.isEmpty then ds else ds ++ '.' :: ds2
        | _ => ds)
    else firstNumberMatch rest

/-- `extractZepbCode(filename)`: the regex match, uppercased. -/
def extractZepbCode (filename : String) : Option String :=
  (codeRegexMatch filename.data).map (fun m => String.mk (m.map jsUpperChar))

/-- `extractNotificationCode(fullPath)`: first the regex against the
filename; otherwise the parent-folder fallback — the first prefix (in
vocabulary order) contained in the uppercased folder name, combined with
the first bare number in the filename. -/
def extractNotificationCode (fullPath : String) : Option String :=
  let filename := pathBasename fullPath
  let foldername := pathBasename (pathDirname fullPath)
  match codeRegexMatch filename.data with
  | some m => some (String.mk (m.map jsUpperChar))
  | none =>
    match PREFIXES.find? (fun p => listContainsB p.data (jsUpperStr foldername).data) with
    | some p =>
      match firstNumberMatch filename.data with
      | some nm => some (jsUpperStr (p ++ "-" ++ String.mk nm))
      | none => none
    | none => none

/-! ## Canonicalization (`canonicalCode`) -/

/-- `raw.replace(/\.\d{1,4}$/i, '')`: a match exists exactly when the
maximal trailing ASCII-digit run has length 1–4 and is preceded by `'.'`;
the replacement deletes that dot and the digits. -/
def stripVersionSuffix (s : String) : String :=
  let rev := s.data.reverse
  let ds := rev.takeWhile jsIsDigit
  if 1 ≤ ds.length ∧ ds.length ≤ 4 ∧ (rev.drop ds.length).head? = some '.' then
    String.mk (((rev.drop (ds.length + 1))).reverse)
  else s

/-- `canonicalCode(raw)`: `null`/empty (JavaScript falsy) returns `null`;
otherwise strip the version suffix and uppercase. -/
def canonicalCode : Option String → Option String
  | none => none
  | some raw => if raw = "" then none else some (jsUpperStr (stripVersionSuffix raw))

/-! ## "Already processed" marker (`fs-utils.ts`)

```
/(\(.*?(с увед|с уведомл|with notification).*?\)|\bс увед\b|\bс уведомл\b|\bwith notification\b|\bобъединен\b|\bprocessed\b)/i.test(name)
```
-/

/-- Does `pat` occur (case-insensitively) starting at position `i`? -/
def occursAtCI (pat s : List Char) (i : Nat) : Bool := listPrefixCI pat (s.drop i)

/-- Is the element at position `i` a `\w` character (out of bounds is a
non-word position)? -/
def wordAt (s : List Char) (i : Nat) : Bool :=
  match s.drop i with
  | c :: _ => jsIsWordChar c
  | [] => false

/-- Regex `\b` at boundary position `i` (between characters `i-1` and
`i`). -/
def wordBoundary (s : List Char) (i : Nat) : Bool :=
  (if i = 0 then false else wordAt s (i - 1)) ≠ wordAt s i

/-- Whether `\bP\b` (case-insensitive) matches anywhere in `s`. -/
def wordTest (pat : List Char) (s : List Char) : Bool :=
  (List.range (s.length + 1)).any fun i =>
    occursAtCI pat s i && wordBoundary s i && wordBoundary s (i + pat.length)

/-- The phrases of the parenthesized alternative. -/
def markerPhrases : List (List Char) :=
  ["с увед".data, "с уведомл".data, "with notification".data]

/-- Whether `\(.*?(с увед|с уведомл|with notification).*?\)` matches
anywhere: an `(` at `a`, a phrase at `b > a`, a `)` at `d` past the
phrase, with only non-line-terminator characters in between. -/
def parenMarkerTest (s : List Char) : Bool :=
  (List.range s.length).any fun a =>
    decide ((s.drop a).head? = some '(') &&
    (List.range s.length).any fun b =>
      decide (a < b) &&
      markerPhrases.any fun ph =>
        occursAtCI ph s b &&
        (List.range s.length).any fun d =>
          decide (b + ph.length ≤ d) &&
          decide ((s.drop d).head? = some ')') &&
          ((List.range s.length).all fun m =>
            !(decide (a < m) && decide (m < d)) || jsIsNonLineTerm ((s.drop m).headD ' '))

/-- `fileMarkedProcessed(name)` — the marker regex `test`. -/
def fileMarkedProcessed (name : String) : Bool :=
  parenMarkerTest name.data ||
  wordTest "с увед".data name.data ||
  wordTest "с уведомл".data name.data ||
  wordTest "with notification".data name.data ||
  wordTest "объединен".data name.data ||
  wordTest "processed".data name.data

/-! ## Filesystem snapshot and `buildDict` (`merge-service.ts`) -/

/-- One directory entry: a regular file (with the `mtime` a `stat` would
report, `none` when `stat` fails) or a subdirectory with its contents. -/
inductive FSEntry where
  | file (name : String) (mtime : Option Nat) : FSEntry
  | dir (name : String) (sub : List FSEntry) : FSEntry
deriving Repr

/-- The dictionary: an association list in insertion order, as a
JavaScript object with non-index string keys enumerates.  Each entry
keeps, besides the stored path, the `mtime` that `stat` on that path
reports (model instrumentation for the conflict rule). -/
abbrev Dict := List (String × String × Option Nat)

def dictLookup (code : String) : Dict → Option (String × Option Nat)
  | [] => none
  | (c, p, t) :: rest => if c = code then some (p, t) else dictLookup code rest

def dictKeys (d : Dict) : List String := d.map (·.1)

/-- `dict[code] = full` on an existing key: the key keeps its insertion
position, only the value changes. -/
def dictUpdate (code full : String) (mt : Option Nat) (d : Dict) : Dict :=
  d.map fun e => if e.1 = code then (code, full, mt) else e

/-- The insertion conflict policy of `buildDict`: on an existing entry,
`stat` both files (`Promise.all` — any failure keeps the existing entry);
replace only when the new file's `mtime` is strictly greater.  A fresh
code is appended. -/
def dictInsert (d : Dict) (code full : String) (mt : Option Nat) : Dict :=
  match dictLookup code d with
  | some (_, told) =>
    match told, mt with
    | some m1, some m2 => if m1 < m2 then dictUpdate code full mt d else d
    | _, _ => d
  | none => d ++ [(code, full, mt)]

/-- The per-file body of `buildDict.scan`: filter, marker test, raw code
extraction (JavaScript falsy test), canonicalization (falsy test),
conflict-aware insertion. -/
def processFile (flt : String → String → Bool) (ext : String → Option String)
    (dirPath : String) (d : Dict) (name : String) (mt : Option Nat) : Dict :=
  let full := pathJoin dirPath name
  if !flt full name then d
  else if fileMarkedProcessed name then d
  else
    let raw := (ext name).getD ""
    if raw = "" then d
    else
      let code := (canonicalCode (some raw)).getD ""
      if code = "" then d
      else dictInsert d code full mt

/-- `/^отказы$/i.test(name)` — the reserved "rejects" folder name. -/
def isRejectsName (n : String) : Bool := jsUpperStr n = "ОТКАЗЫ"

/-- The recursive `scan` of `buildDict` over one directory listing:
subdirectories named `отказы` are skipped; other subdirectories are
entered only when `recursive` holds; files flow through `processFile`. -/
def scanEntries (recursive : Bool) (flt : String → String → Bool)
    (ext : String → Option String) :
    String → Dict → List FSEntry → Dict
  | _, acc, [] => acc
  | dirPath, acc, FSEntry.file n mt :: rest =>
    scanEntries recursive flt ext dirPath (processFile flt ext dirPath acc n mt) rest
  | dirPath, acc, FSEntry.dir n sub :: rest =>
    let acc' :=
      if isRejectsName n then acc
      else if recursive then scanEntries recursive flt ext (pathJoin dirPath n) acc sub
      else acc
    scanEntries recursive flt ext dirPath acc' rest

/-- `buildDict(root, recursive, fileFilter, extractCode)` over the
snapshot `tree` of `root`'s contents. -/
def buildDict (root : String) (tree : List FSEntry) (recursive : Bool)
    (flt : String → String → Bool) (ext : String → Option String) : Dict :=
  scanEntries recursive flt ext root [] tree

/-! ## Well-formed snapshots

Entry names as `readdir` reports them: non-empty and separator-free. -/

def goodName (n : String) : Bool := !n.data.isEmpty && n.data.all (· ≠ '/')

def wfEntries : List FSEntry → Bool
  | [] => true
  | FSEntry.file n _ :: rest => goodName n && wfEntries rest
  | FSEntry.dir n sub :: rest => goodName n && wfEntries sub && wfEntries rest

/-! ## The `merge-pdfs` handler (`ipc/merge.ts`) -/

/-- The notification-side file filter:
`full => full.toLowerCase().endsWith('.pdf')`. -/
def insertFileFilter (full _name : String) : Bool :=
  strEndsWith (jsLowerStr full) ".pdf"

/-- The ZEPB-side file filter:
`(full, name) => full.toLowerCase().endsWith('.pdf') && name.toLowerCase().includes('зэпб')`. -/
def zepbFileFilter (full name : String) : Bool :=
  strEndsWith (jsLowerStr full) ".pdf" && listContainsB "зэпб".data (jsLowerStr name).data

/-- Does `\s*\(с увед.*?\)\s*$` match the suffix starting at position
`i`?  Greedy `\s*` must end at a literal `(`, then the phrase, then a `)`
with non-line-terminator characters before it and only whitespace to the
end of the string after it. -/
def matchParenUvedAt (s : List Char) (i : Nat) : Bool :=
  match (s.drop i).dropWhile jsIsWs with
  | '(' :: rest3 =>
    listPrefixCI "с увед".data rest3 &&
    (let rest4 := rest3.drop "с увед".data.length
     (List.range rest4.length).any fun k =>
       decide ((rest4.drop k).head? = some ')') &&
       ((List.range rest4.length).all fun m =>
         (!decide (m < k) || jsIsNonLineTerm ((rest4.drop m).headD ' ')) &&
         (!decide (k < m) || jsIsWs ((rest4.drop m).headD ' '))))
  | _ => false

/-- `base.replace(/\s*\(с увед.*?\)\s*$/i, '')`: the match is anchored at
the end, so deleting the leftmost match truncates the string at the
match's start. -/
def replaceParenUvedSuffix (s : String) : String :=
  match (List.range (s.data.length + 1)).find? (fun i => matchParenUvedAt s.data i) with
  | some i => String.mk (s.data.take i)
  | none => s

/-- Does `\s*с увед.*?$` match the suffix starting at position `i`? -/
def matchUvedAt (s : List Char) (i : Nat) : Bool :=
  let rest2 := (s.drop i).dropWhile jsIsWs
  listPrefixCI "с увед".data rest2 &&
  (rest2.drop "с увед".data.length).all jsIsNonLineTerm

/-- `….replace(/\s*с увед.*?$/i, '')`. -/
def replaceUvedSuffix (s : String) : String :=
  match (List.range (s.data.length + 1)).find? (fun i => matchUvedAt s.data i) with
  | some i => String.mk (s.data.take i)
  | none => s

/-- Output-name derivation of the merge loop:
```
const base = path.basename(zepbPath, '.pdf')
  .replace(/\s*\(с увед.*?\)\s*$/i, '')
  .replace(/\s*с увед.*?$/i, '');
const outName = `${base} (с увед).pdf`;
```
-/
def deriveOutName (zepbPath : String) : String :=
  let base := replaceUvedSuffix (replaceParenUvedSuffix (pathBasenameExt zepbPath ".pdf"))
  base ++ " (с увед).pdf"

/-- Mutable summary state of the merge loop, plus the ghost list
`attempted` of iteration indices whose body ran (past the cancellation
checkpoint). -/
structure LoopState where
  processed : Nat
  skipped : Nat
  errors : List String
  log : List String
  canceled : Bool
  processedNames : List String
  attempted : List Nat
deriving Repr, DecidableEq

def initLoopState : LoopState := ⟨0, 0, [], [], false, [], []⟩

def cancelMsg : String := "Операция объединения отменена пользователем"

/-- The merge loop of the `merge-pdfs` handler (lines 126–239): iterate
the notification-side codes; poll the cancellation flag at the top of
every iteration; skip when no ZEPB path exists (JavaScript falsy test) or
when the ZEPB basename is marked processed; otherwise call the merge
collaborator (`mergeRes p q out = none` models success, `some e` a thrown
error with message `e`). -/
def mergeLoop (insertDict zepbDict : Dict) (outputFolder : String)
    (cancelAt : Nat → Bool)
    (mergeRes : String → String → String → Option String) :
    List String → Nat → LoopState → LoopState
  | [], _, st => st
  | code :: rest, i, st =>
    if cancelAt i then
      { st with log := st.log ++ [cancelMsg], canceled := true }
    else
      let st1 := { st with attempted := st.attempted ++ [i] }
      let notifPath := ((dictLookup code insertDict).map (·.1)).getD ""
      let zepbPath := ((dictLookup code zepbDict).map (·.1)).getD ""
      if zepbPath = "" then
        let msg := "Не найден ЗЭПБ для уведомления: " ++ pathBasename notifPath ++ " (" ++ code ++ ")"
        mergeLoop insertDict zepbDict outputFolder cancelAt mergeRes rest (i + 1)
          { st1 with skipped := st1.skipped + 1, log := st1.log ++ [msg] }
      else if fileMarkedProcessed (pathBasename zepbPath) then
        let msg := "Пропущен уже обработанный ЗЭПБ: " ++ pathBasename zepbPath
        mergeLoop insertDict zepbDict outputFolder cancelAt mergeRes rest (i + 1)
          { st1 with skipped := st1.skipped + 1, log := st1.log ++ [msg] }
      else
        let outName := deriveOutName zepbPath
        let outFull := pathJoin outputFolder outName
        match mergeRes notifPath zepbPath outFull with
        | none =>
          let msg := "Сшито: " ++ outName
          mergeLoop insertDict zepbDict outputFolder cancelAt mergeRes rest (i + 1)
            { st1 with processed := st1.processed + 1,
                       processedNames := st1.processedNames ++ [outName],
                       log := st1.log ++ [msg] }
        | some e =>
          let msg := "Ошибка при объединении кода " ++ code ++ ": " ++ e
          mergeLoop insertDict zepbDict outputFolder cancelAt mergeRes rest (i + 1)
            { st1 with skipped := st1.skipped + 1,
                       errors := st1.errors ++ [msg],
                       log := st1.log ++ [msg] }

/-- The unmatched report of one side against the other (lines 109–115):
`codes.filter(code => !otherSet.has(code)).map(code => ({code, file: basename(dict[code])}))`. -/
def unmatchedOf (a b : Dict) : List (String × String) :=
  ((dictKeys a).filter (fun code => !(dictKeys b).contains code)).map
    (fun code => (code, pathBasename (((dictLookup code a).map (·.1)).getD "")))

/-- The matched codes of the pairing: the notification-side codes whose
canonical code the ZEPB side also has, in notification enumeration order
(these are exactly the loop iterations that find both paths). -/
def matchedCodes (a b : Dict) : List String :=
  (dictKeys a).filter (fun code => (dictKeys b).contains code)

/-- Result of one `merge-pdfs` invocation: the summary fields, the
registry identifier, the unmatched reports, and the ghost `attempted`
list of the loop. -/
structure MergeRunResult where
  processed : Nat
  skipped : Nat
  errors : List String
  log : List String
  total : Nat
  canceled : Bool
  registry : Option String
  unmatchedNotifications : List (String × String)
  unmatchedZepb : List (String × String)
  attempted : List Nat
deriving Repr, DecidableEq

/-- The `merge-pdfs` handler.  `mainTree`/`insertTree` are the snapshots
of `mainFolder`/`insertFolder`; `cancelAt i` is the value of the
process-wide cancellation flag observed at the checkpoint of iteration
`i` (the flag is reset to `false` at run start and is only ever set
during a run, so these observations are monotone); `registryRes` is the
`createRegisterDocx` collaborator (`.error e` models a thrown error —
note it is *not* wrapped in its own try/catch in the source, so it
reaches the handler's outer catch, which appends an error message and
returns empty unmatched lists). -/
def mergePdfsHandler (mainFolder insertFolder outputFolder : String)
    (recursiveMain recursiveInsert : Bool)
    (mainTree insertTree : List FSEntry)
    (cancelAt : Nat → Bool)
    (mergeRes : String → String → String → Option String)
    (registryRes : String → List String → Except String String) : MergeRunResult :=
  if mainFolder = "" ∨ insertFolder = "" ∨ outputFolder = "" then
    let msg := "Ошибка объединения: " ++ "Не указаны папки"
    { processed := 0, skipped := 0, errors := [msg], log := [msg], total := 0,
      canceled := false, registry := none, unmatchedNotifications := [],
      unmatchedZepb := [], attempted := [] }
  else
    let insertDict := buildDict insertFolder insertTree recursiveInsert
      insertFileFilter extractNotificationCode
    let zepbDict := buildDict mainFolder mainTree recursiveMain
      zepbFileFilter extractZepbCode
    let insertCodes := dictKeys insertDict
    let unN := unmatchedOf insertDict zepbDict
    let unZ := unmatchedOf zepbDict insertDict
    let fin := mergeLoop insertDict zepbDict outputFolder cancelAt mergeRes
      insertCodes 0 initLoopState
    match (if fin.processedNames.isEmpty then Except.ok none
           else (registryRes outputFolder fin.processedNames).map some) with
    | .ok reg =>
      { processed := fin.processed, skipped := fin.skipped, errors := fin.errors,
        log := fin.log, total := insertCodes.length, canceled := fin.canceled,
        registry := reg, unmatchedNotifications := unN, unmatchedZepb := unZ,
        attempted := fin.attempted }
    | .error e =>
      let msg := "Ошибка объединения: " ++ e
      { processed := fin.processed, skipped := fin.skipped,
        errors := fin.errors ++ [msg], log := fin.log ++ [msg],
        total := insertCodes.length, canceled := fin.canceled, registry := none,
        unmatchedNotifications := [], unmatchedZepb := [],
        attempted := fin.attempted }

/-! ## The compress pipeline (`pdf-service.ts`, `ipc/compress.ts`) -/

/-- `qualityToPdfSettings(quality)` (`ghostscript.ts`). -/
def qualityToPdfSettings (quality : Nat) : String :=
  if quality ≤ 12 then "/screen"
  else if quality ≤ 25 then "/ebook"
  else if quality ≤ 40 then "/printer"
  else "/prepress"

/-- Result record of `compressSinglePdf` for one file. -/
structure FileProcessResult where
  name : String
  ok : Bool
  inSize : Option Nat
  outSize : Option Nat
  error : Option String
  notes : Option String
deriving Repr, DecidableEq

/-- Result of `compressFiles`, plus ghost instrumentation: `attempted`
records the loop iterations whose `compressSinglePdf` call ran, and
`progressEvents` the `index + 1` values for which the `compress-files`
handler's progress callback actually forwarded an event (the callback
returns early when the cancellation flag is observed set — that is the
flag's *only* effect in this pipeline). -/
structure CompressRunResult where
  processed : Nat
  total : Nat
  log : List String
  used : String
  files : List FileProcessResult
  attempted : List Nat
  progressEvents : List Nat
deriving Repr, DecidableEq

/-- The per-file loop of `compressFiles` (lines 294–318): call
`compressSinglePdf`, count successes, log, record the result, then hand
the result to the progress callback.  The loop body contains no
cancellation checkpoint; `cancelAt index` is only consulted by the
callback (modelling `compress.ts` lines 37–54), where it suppresses the
progress event. -/
def compressLoop (outputFolder : String) (total : Nat)
    (singleRes : String → String → FileProcessResult)
    (gsCmd : Option String) (quality : Nat) (cancelAt : Nat → Bool) :
    List String → Nat → CompressRunResult → CompressRunResult
  | [], _, r => r
  | fullPath :: rest, index, r =>
    let fname := pathBasename fullPath
    let outPath := pathJoin outputFolder fname
    let fileResult := singleRes fullPath outPath
    let r1 :=
      if fileResult.ok then
        { r with processed := r.processed + 1,
                 log := r.log ++ [match gsCmd with
                   | some _ => "GS: " ++ fname ++ " -> " ++ outPath ++ " (" ++ qualityToPdfSettings quality ++ ")"
                   | none => "FB: " ++ fname ++ " -> " ++ outPath] }
      else
        { r with log := r.log ++ ["Ошибка " ++ fname ++ ": " ++ fileResult.error.getD ""] }
    let r2 := { r1 with files := r1.files ++ [fileResult],
                        attempted := r1.attempted ++ [index],
                        progressEvents :=
                          if cancelAt index then r1.progressEvents
                          else r1.progressEvents ++ [index + 1] }
    compressLoop outputFolder total singleRes gsCmd quality cancelAt rest (index + 1) r2

/-- `compressFiles(files, outputFolder, quality)` as driven by the
`compress-files` handler.  `statIsPdfFile f` models
`fsp.stat(f)` succeeding with `isFile()` true; `gsCmd` is
`findGhostscript()`'s result; `singleRes` is the `compressSinglePdf`
collaborator.  The handler resets the cancellation flag before the call;
`cancelAt` gives the values the progress callback then observes. -/
def compressFiles (files : List String) (outputFolder : String) (quality : Nat)
    (statIsPdfFile : String → Bool) (gsCmd : Option String)
    (singleRes : String → String → FileProcessResult)
    (cancelAt : Nat → Bool) : CompressRunResult :=
  if files.isEmpty then
    { processed := 0, total := 0, log := ["Ошибка compress-files: " ++ "Нет файлов для сжатия"],
      used := "none", files := [], attempted := [], progressEvents := [] }
  else if outputFolder = "" then
    { processed := 0, total := 0, log := ["Ошибка compress-files: " ++ "Не указана папка вывода"],
      used := "none", files := [], attempted := [], progressEvents := [] }
  else
    let pdfs := files.filter (fun f => statIsPdfFile f && strEndsWith (jsLowerStr f) ".pdf")
    let used := match gsCmd with
      | some cmd => "ghostscript (" ++ (if listContainsB "resources".data cmd.data then "bundled" else "system") ++ ")"
      | none => "pdf-lib(fallback)"
    let log0 := ["Получено " ++ toString pdfs.length ++ " PDF для сжатия"] ++
      (match gsCmd with
       | some cmd => ["[INFO] Используется Ghostscript: " ++ cmd]
       | none => ["[WARN] Ghostscript не найден, fallback режим."])
    let r := compressLoop outputFolder pdfs.length singleRes gsCmd quality cancelAt pdfs 0
      { processed := 0, total := pdfs.length, log := log0, used := used,
        files := [], attempted := [], progressEvents := [] }
    { r with log := ["Сжатие завершено. Engine: " ++ used] ++ r.log }

/-! ## Helper lemmas -/

theorem takeWhile_all_append {p : Char → Bool} {l : List Char} {x : Char} {r : List Char}
    (hl : ∀ a ∈ l, p a = true) (hx : p x = false) :
    (l ++ x :: r).takeWhile p = l := by
  induction l with
  | nil => simp [List.takeWhile_cons, hx]
  | cons a t ih =>
    have ha : p a = true := hl a (by simp)
    simp only [List.cons_append, List.takeWhile_cons, ha, if_true]
    rw [ih fun b hb => hl b (by simp [hb])]

theorem takeWhile_of_all {p : Char → Bool} {l : List Char}
    (hl : ∀ a ∈ l, p a = true) : l.takeWhile p = l := by
  induction l with
  | nil => rfl
  | cons a t ih =>
    have ha : p a = true := hl a (by simp)
    simp only [List.takeWhile_cons, ha, if_true]
    rw [ih fun b hb => hl b (by simp [hb])]

theorem dropWhile_of_all_neg {p : Char → Bool} {l : List Char}
    (hl : ∀ a ∈ l, p a = false) : l.dropWhile p = l := by
  cases l with
  | nil => rfl
  | cons a t => simp [List.dropWhile_cons, hl a (by simp)]

theorem dropWhile_eq_nil_of_all {p : Char → Bool} {l : List Char}
    (hl : ∀ a ∈ l, p a = true) : l.dropWhile p = [] := by
  induction l with
  | nil => rfl
  | cons a t ih =>
    simp only [List.dropWhile_cons, hl a (by simp), if_true]
    exact ih fun b hb => hl b (by simp [hb])

theorem string_ne_empty_data {s : String} (h : s ≠ "") : s.data ≠ [] := by
  intro hd
  apply h
  cases s
  simp_all

/-! ## Path lemmas -/

theorem pathBasename_noSlash (s : String) (h : ∀ c ∈ s.data, c ≠ '/') :
    pathBasename s = s := by
  unfold pathBasename
  have h1 : s.data.reverse.dropWhile (· = '/') = s.data.reverse := by
    apply dropWhile_of_all_neg
    intro a ha
    simp only [decide_eq_false_iff_not]
    exact h a (List.mem_reverse.mp ha)
  have h2 : s.data.reverse.takeWhile (· ≠ '/') = s.data.reverse := by
    apply takeWhile_of_all
    intro a ha
    simp only [decide_eq_true_eq]
    exact h a (List.mem_reverse.mp ha)
  rw [h1, h2, List.reverse_reverse]

theorem pathDirname_noSlash (s : String) (h : ∀ c ∈ s.data, c ≠ '/') :
    pathDirname s = "." := by
  unfold pathDirname
  by_cases hs : s = ""
  · simp [hs]
  · rw [if_neg hs]
    have h1 : s.data.reverse.dropWhile (· = '/') = s.data.reverse := by
      apply dropWhile_of_all_neg
      intro a ha
      simp only [decide_eq_false_iff_not]
      exact h a (List.mem_reverse.mp ha)
    have h2 : s.data.reverse.dropWhile (· ≠ '/') = [] := by
      apply dropWhile_eq_nil_of_all
      intro a ha
      simp only [decide_eq_true_eq]
      exact h a (List.mem_reverse.mp ha)
    rw [h1, h2]
    have h3 : ¬ (s.data.head? = some '/') := by
      intro hh
      have hmem : '/' ∈ s.data := by
        cases hq : s.data with
        | nil => rw [hq] at hh; simp at hh
        | cons c t =>
          rw [hq] at hh
          simp only [List.head?_cons, Option.some.injEq] at hh
          simp only [List.mem_cons]
          exact Or.inl hh.symm
      exact h '/' hmem rfl
    simp [h3]

theorem data_append (a b : String) : (a ++ b).data = a.data ++ b.data := rfl

theorem pathBasename_join (d n : String) (hn : goodName n = true) :
    pathBasename (pathJoin d n) = n := by
  have hne : n.data ≠ [] := by
    simp only [goodName, Bool.and_eq_true, Bool.not_eq_true'] at hn
    simpa [List.isEmpty_iff] using hn.1
  have hns : ∀ c ∈ n.data, c ≠ '/' := by
    simp only [goodName, Bool.and_eq_true, List.all_eq_true] at hn
    intro c hc
    have := hn.2 c hc
    simpa using this
  unfold pathJoin
  by_cases hd : d = "" ∨ d = "."
  · rw [if_pos hd]
    exact pathBasename_noSlash n hns
  · rw [if_neg hd]
    unfold pathBasename
    have hdata : (d ++ "/" ++ n).data = d.data ++ '/' :: n.data := by
      rw [data_append, data_append]
      simp
    rw [hdata]
    have hrev : (d.data ++ '/' :: n.data).reverse = n.data.reverse ++ '/' :: d.data.reverse := by
      rw [List.reverse_append, List.reverse_cons]
      simp
    rw [hrev]
    obtain ⟨c, t, hct⟩ := List.exists_cons_of_ne_nil (l := n.data.reverse)
      (by simpa using hne)
    have hchd : c ∈ n.data := by
      have : c ∈ n.data.reverse := by rw [hct]; simp
      exact List.mem_reverse.mp this
    have hdw : (n.data.reverse ++ '/' :: d.data.reverse).dropWhile (· = '/')
        = n.data.reverse ++ '/' :: d.data.reverse := by
      rw [hct]
      simp only [List.cons_append, List.dropWhile_cons]
      rw [if_neg]
      simp only [decide_eq_true_eq]
      exact hns c hchd
    rw [hdw]
    have htw : (n.data.reverse ++ '/' :: d.data.reverse).takeWhile (· ≠ '/')
        = n.data.reverse := by
      apply takeWhile_all_append
      · intro a ha
        simp only [decide_eq_true_eq]
        exact hns a (List.mem_reverse.mp ha)
      · simp
    rw [htw, List.reverse_reverse]

/-! ## Canonicalization lemmas (claim C9) -/

theorem strip_data (pre : String) (dsl : List Char) :
    (pre ++ "." ++ String.mk dsl).data = pre.data ++ '.' :: dsl := by
  rw [data_append, data_append]
  simp

theorem stripVersionSuffix_strips (pre : String) (dsl : List Char)
    (h1 : dsl ≠ []) (h4 : dsl.length ≤ 4) (hd : ∀ c ∈ dsl, jsIsDigit c = true) :
    stripVersionSuffix (pre ++ "." ++ String.mk dsl) = pre := by
  simp only [stripVersionSuffix]
  rw [strip_data]
  have hrev : (pre.data ++ '.' :: dsl).reverse = dsl.reverse ++ '.' :: pre.data.reverse := by
    rw [List.reverse_append, List.reverse_cons]
    simp
  rw [hrev]
  have htw : (dsl.reverse ++ '.' :: pre.data.reverse).takeWhile jsIsDigit = dsl.reverse := by
    apply takeWhile_all_append
    · intro a ha
      exact hd a (List.mem_reverse.mp ha)
    · decide
  rw [htw]
  have hlen : dsl.reverse.length = dsl.length := List.length_reverse dsl
  have hdrop : (dsl.reverse ++ '.' :: pre.data.reverse).drop dsl.reverse.length
      = '.' :: pre.data.reverse := List.drop_left _ _
  rw [if_pos]
  · have hdrop1 : (dsl.reverse ++ '.' :: pre.data.reverse).drop (dsl.reverse.length + 1)
        = pre.data.reverse := by
      rw [← List.drop_drop, hdrop]
      rfl
    rw [hdrop1, List.reverse_reverse]
  · refine ⟨?_, ?_, ?_⟩
    · rw [hlen]
      exact Nat.one_le_iff_ne_zero.mpr (fun h0 => h1 (List.eq_nil_of_length_eq_zero h0))
    · rw [hlen]; exact h4
    · rw [hdrop]; rfl

theorem stripVersionSuffix_keeps_long (pre : String) (dsl : List Char)
    (h5 : 5 ≤ dsl.length) (hd : ∀ c ∈ dsl, jsIsDigit c = true) :
    stripVersionSuffix (pre ++ "." ++ String.mk dsl) = pre ++ "." ++ String.mk dsl := by
  simp only [stripVersionSuffix]
  rw [strip_data]
  have hrev : (pre.data ++ '.' :: dsl).reverse = dsl.reverse ++ '.' :: pre.data.reverse := by
    rw [List.reverse_append, List.reverse_cons]
    simp
  rw [hrev]
  have htw : (dsl.reverse ++ '.' :: pre.data.reverse).takeWhile jsIsDigit = dsl.reverse := by
    apply takeWhile_all_append
    · intro a ha
      exact hd a (List.mem_reverse.mp ha)
    · decide
  rw [htw, if_neg]
  · intro hcond
    have := hcond.2.1
    rw [List.length_reverse] at this
    omega

theorem stripVersionSuffix_keeps_nonDigitEnd (s : String) (c : Char)
    (hl : s.data.getLast? = some c) (hc : jsIsDigit c = false) :
    stripVersionSuffix s = s := by
  simp only [stripVersionSuffix]
  have hh : s.data.reverse.head? = some c := by rw [List.head?_reverse]; exact hl
  obtain ⟨t, ht⟩ : ∃ t, s.data.reverse = c :: t := by
    cases hq : s.data.reverse with
    | nil => rw [hq] at hh; simp at hh
    | cons a u =>
      rw [hq] at hh
      simp only [List.head?_cons, Option.some.injEq] at hh
      exact ⟨u, by rw [← hh]⟩
  rw [ht]
  have htw : (c :: t).takeWhile jsIsDigit = [] := by
    simp [List.takeWhile_cons, hc]
  rw [htw, if_neg]
  intro hcond
  simp at hcond

/-- C9: `canonicalCode` strips exactly a trailing `.` followed by 1–4
digits and uppercases; a trailing `.` with five or more digits, or a
string not ending in a digit, is only uppercased; `none` maps to
`none`. -/
theorem claim_C9_canonicalize :
    (∀ (pre : String) (dsl : List Char), dsl ≠ [] → dsl.length ≤ 4 →
      (∀ c ∈ dsl, jsIsDigit c = true) →
      canonicalCode (some (pre ++ "." ++ String.mk dsl)) = some (jsUpperStr pre))
    ∧ (∀ (pre : String) (dsl : List Char), 5 ≤ dsl.length →
      (∀ c ∈ dsl, jsIsDigit c = true) →
      canonicalCode (some (pre ++ "." ++ String.mk dsl))
        = some (jsUpperStr (pre ++ "." ++ String.mk dsl)))
    ∧ (∀ (s : String) (c : Char), s.data.getLast? = some c → jsIsDigit c = false →
      canonicalCode (some s) = some (jsUpperStr s))
    ∧ canonicalCode none = none := by
  refine ⟨?_, ?_, ?_, rfl⟩
  · intro pre dsl h1 h4 hd
    have hne : (pre ++ "." ++ String.mk dsl) ≠ "" := by
      intro h
      have : (pre ++ "." ++ String.mk dsl).data = [] := by rw [h]
      rw [strip_data] at this
      simp at this
    simp only [canonicalCode]
    rw [if_neg hne, stripVersionSuffix_strips pre dsl h1 h4 hd]
  · intro pre dsl h5 hd
    have hne : (pre ++ "." ++ String.mk dsl) ≠ "" := by
      intro h
      have : (pre ++ "." ++ String.mk dsl).data = [] := by rw [h]
      rw [strip_data] at this
      simp at this
    simp only [canonicalCode]
    rw [if_neg hne, stripVersionSuffix_keeps_long pre dsl h5 hd]
  · intro s c hl hc
    have hne : s ≠ "" := by
      intro h
      rw [h] at hl
      simp at hl
    simp only [canonicalCode]
    rw [if_neg hne, stripVersionSuffix_keeps_nonDigitEnd s c hl hc]

/-- Witness for C9 at concrete inputs. -/
theorem claim_C9_canonicalize_witness :
    canonicalCode (some ("Спд-1245" ++ "." ++ String.mk ['2', '5'])) = some (jsUpperStr "Спд-1245")
    ∧ canonicalCode (some ("П-1" ++ "." ++ String.mk ['1', '2', '3', '4', '5']))
        = some (jsUpperStr ("П-1" ++ "." ++ String.mk ['1', '2', '3', '4', '5']))
    ∧ canonicalCode (some "СПД-1.2x") = some (jsUpperStr "СПД-1.2x")
    ∧ canonicalCode none = none :=
  ⟨claim_C9_canonicalize.1 "Спд-1245" ['2', '5'] (by decide) (by decide) (by decide),
   claim_C9_canonicalize.2.1 "П-1" ['1', '2', '3', '4', '5'] (by decide) (by decide),
   claim_C9_canonicalize.2.2.1 "СПД-1.2x" 'x' (by decide) (by decide),
   claim_C9_canonicalize.2.2.2⟩

/-! ## Claim C1: prefix specificity -/

/-- C1 counterexample: for a file `12.pdf` inside a folder named `ПТП`,
the parent-folder fallback returns `П-12` (the first vocabulary prefix
contained in the folder name), not the longer `ПТП-12` the claim
requires. -/
theorem claim_C1_counterexample :
    extractNotificationCode "ПТП/12.pdf" = some "П-12"
    ∧ extractNotificationCode "ПТП/12.pdf" ≠ some "ПТП-12" := by decide

/-! ## Claim C10: `buildDict` extracts from the bare file name -/

theorem extract_eq_on_bare (name : String) (h : ∀ c ∈ name.data, c ≠ '/') :
    extractNotificationCode name = extractZepbCode name := by
  unfold extractNotificationCode extractZepbCode
  rw [pathBasename_noSlash name h, pathDirname_noSlash name h]
  have hfind : PREFIXES.find?
      (fun p => listContainsB p.data (jsUpperStr (pathBasename ".")).data) = none := by decide
  cases hcm : codeRegexMatch name.data with
  | some m => simp [hcm]
  | none => simp [hcm, hfind]

theorem processFile_ext_congr {flt : String → String → Bool}
    {ext1 ext2 : String → Option String} {dp : String} {acc : Dict}
    {n : String} {mt : Option Nat} (h : ext1 n = ext2 n) :
    processFile flt ext1 dp acc n mt = processFile flt ext2 dp acc n mt := by
  simp only [processFile, h]

theorem scanEntries_ext_congr (rec : Bool) (flt : String → String → Bool)
    (ext1 ext2 : String → Option String)
    (hext : ∀ n, goodName n = true → ext1 n = ext2 n) :
    ∀ (dp : String) (acc : Dict) (t : List FSEntry), wfEntries t = true →
      scanEntries rec flt ext1 dp acc t = scanEntries rec flt ext2 dp acc t := by
  intro dp acc t
  induction dp, acc, t using scanEntries.induct rec flt ext1 with
  | case1 dp acc => intro _; simp [scanEntries]
  | case2 dp acc n mt rest ih =>
    intro hwf
    simp only [wfEntries, Bool.and_eq_true] at hwf
    simp only [scanEntries]
    rw [← processFile_ext_congr (hext n hwf.1)]
    exact ih hwf.2
  | case3 dp acc n sub rest acc' ihsub ihrest =>
    intro hwf
    simp only [wfEntries, Bool.and_eq_true] at hwf
    simp only [scanEntries]
    have hval : acc' = (if isRejectsName n then acc
        else if rec then scanEntries rec flt ext1 (pathJoin dp n) acc sub else acc) := rfl
    rw [hval] at ihrest
    by_cases hrj : isRejectsName n
    · simp only [hrj, if_true] at ihrest ⊢
      exact ihrest hwf.2
    · by_cases hrec : rec
      · simp only [hrec] at ihsub
        simp only [hrj, hrec, if_true, if_false, Bool.false_eq_true] at ihrest ⊢
        rw [← ihsub hwf.1.2]
        exact ihrest hwf.2
      · simp only [hrj, hrec, if_false, Bool.false_eq_true] at ihrest ⊢
        exact ihrest hwf.2

/-- C10: `buildDict` hands the extractor the bare entry name, so the
parent-folder fallback of `extractNotificationCode` can never fire inside
`buildDict` (the parent of a bare name is `"."`, which contains no
prefix): on separator-free names the two extractors agree, and
`buildDict` gives identical dictionaries with either extractor. -/
theorem claim_C10_bare_extractor :
    (∀ name : String, (∀ c ∈ name.data, c ≠ '/') →
      extractNotificationCode name = extractZepbCode name)
    ∧ (∀ (root : String) (t : List FSEntry) (rec : Bool) (flt : String → String → Bool),
      wfEntries t = true →
      buildDict root t rec flt extractNotificationCode
        = buildDict root t rec flt extractZepbCode) := by
  constructor
  · exact extract_eq_on_bare
  · intro root t rec flt hwf
    unfold buildDict
    apply scanEntries_ext_congr
    · intro n hn
      apply extract_eq_on_bare
      simp only [goodName, Bool.and_eq_true, List.all_eq_true] at hn
      intro c hc
      simpa using hn.2 c hc
    · exact hwf

/-- Witness for C10 at a concrete name and snapshot. -/
theorem claim_C10_bare_extractor_witness :
    extractNotificationCode "12.pdf" = extractZepbCode "12.pdf"
    ∧ buildDict "i" [FSEntry.file "П-1.pdf" none] true insertFileFilter extractNotificationCode
      = buildDict "i" [FSEntry.file "П-1.pdf" none] true insertFileFilter extractZepbCode :=
  ⟨claim_C10_bare_extractor.1 "12.pdf" (by decide),
   claim_C10_bare_extractor.2 "i" [FSEntry.file "П-1.pdf" none] true insertFileFilter
     (by simp only [wfEntries]; decide)⟩

/-! ## Claim C8: already-processed filtering -/

theorem dictInsert_mem {d : Dict} {code full : String} {mt : Option Nat}
    {e : String × String × Option Nat}
    (he : e ∈ dictInsert d code full mt) : e ∈ d ∨ e = (code, full, mt) := by
  unfold dictInsert at he
  cases hl : dictLookup code d with
  | some v =>
    rw [hl] at he
    obtain ⟨p1, t1⟩ := v
    dsimp only at he
    cases t1 with
    | none => exact Or.inl he
    | some m1 =>
      cases mt with
      | none => exact Or.inl he
      | some m2 =>
        dsimp only at he
        by_cases hlt : m1 < m2
        · rw [if_pos hlt] at he
          unfold dictUpdate at he
          obtain ⟨e', he', heq⟩ := List.mem_map.mp he
          by_cases hc : e'.1 = code
          · right
            rw [← heq, if_pos hc]
          · left
            rw [← heq, if_neg hc]
            exact he'
        · rw [if_neg hlt] at he
          exact Or.inl he
  | none =>
    rw [hl] at he
    rcases List.mem_append.mp he with h | h
    · exact Or.inl h
    · right
      simpa using h

theorem processFile_notMarked {flt : String → String → Bool}
    {ext : String → Option String} {dp : String} {d : Dict}
    {n : String} {mt : Option Nat}
    (hn : goodName n = true)
    (hd : ∀ e ∈ d, fileMarkedProcessed (pathBasename e.2.1) = false) :
    ∀ e ∈ processFile flt ext dp d n mt,
      fileMarkedProcessed (pathBasename e.2.1) = false := by
  intro e he
  simp only [processFile] at he
  by_cases hf : flt (pathJoin dp n) n
  · simp only [hf, Bool.not_true, Bool.false_eq_true, if_false] at he
    by_cases hm : fileMarkedProcessed n
    · simp only [hm, if_true] at he
      exact hd e he
    · simp only [hm, Bool.false_eq_true, if_false] at he
      by_cases hraw : (ext n).getD "" = ""
      · rw [if_pos hraw] at he
        exact hd e he
      · rw [if_neg hraw] at he
        by_cases hcode : (canonicalCode (some ((ext n).getD ""))).getD "" = ""
        · rw [if_pos hcode] at he
          exact hd e he
        · rw [if_neg hcode] at he
          rcases dictInsert_mem he with h | h
          · exact hd e h
          · rw [h]
            simp only
            rw [pathBasename_join dp n hn]
            simpa using hm
  · simp only [hf] at he
    simp only [Bool.not_false, if_true] at he
    exact hd e he

theorem scanEntries_notMarked (rec : Bool) (flt : String → String → Bool)
    (ext : String → Option String) :
    ∀ (dp : String) (acc : Dict) (t : List FSEntry), wfEntries t = true →
      (∀ e ∈ acc, fileMarkedProcessed (pathBasename e.2.1) = false) →
      ∀ e ∈ scanEntries rec flt ext dp acc t,
        fileMarkedProcessed (pathBasename e.2.1) = false := by
  intro dp acc t
  induction dp, acc, t using scanEntries.induct rec flt ext with
  | case1 dp acc =>
    intro _ hacc
    simpa [scanEntries] using hacc
  | case2 dp acc n mt rest ih =>
    intro hwf hacc
    simp only [wfEntries, Bool.and_eq_true] at hwf
    simp only [scanEntries]
    exact ih hwf.2 (processFile_notMarked hwf.1 hacc)
  | case3 dp acc n sub rest acc' ihsub ihrest =>
    intro hwf hacc
    simp only [wfEntries, Bool.and_eq_true] at hwf
    simp only [scanEntries]
    have hval : acc' = (if isRejectsName n then acc
        else if rec then scanEntries rec flt ext (pathJoin dp n) acc sub else acc) := rfl
    rw [hval] at ihrest
    by_cases hrj : isRejectsName n
    · simp only [hrj, if_true] at ihrest ⊢
      exact ihrest hwf.2 hacc
    · by_cases hrec : rec
      · simp only [hrec] at ihsub
        simp only [hrj, hrec, if_true, if_false, Bool.false_eq_true] at ihrest ⊢
        exact ihrest hwf.2 (ihsub hwf.1.2 hacc)
      · simp only [hrj, hrec, if_false, Bool.false_eq_true] at ihrest ⊢
        exact ihrest hwf.2 hacc

/-- C8: over any well-formed snapshot, no value of the dictionary built
by `buildDict` has a basename satisfying `fileMarkedProcessed`, and
scanning the same unchanged snapshot a second time yields the same
dictionary (the scan is a pure function of the snapshot). -/
theorem claim_C8_filter_invariant (root : String) (t : List FSEntry) (rec : Bool)
    (flt : String → String → Bool) (ext : String → Option String)
    (hwf : wfEntries t = true) :
    (∀ e ∈ buildDict root t rec flt ext,
      fileMarkedProcessed (pathBasename e.2.1) = false)
    ∧ buildDict root t rec flt ext = buildDict root t rec flt ext := by
  constructor
  · unfold buildDict
    exact scanEntries_notMarked rec flt ext root [] t hwf (by intro e he; simp at he)
  · rfl

/-- Witness for C8: a snapshot holding one marked and one unmarked file;
the marked one never appears among the dictionary's values. -/
theorem claim_C8_filter_invariant_witness :
    (∀ e ∈ buildDict "i" [FSEntry.file "П-1 (с увед).pdf" none, FSEntry.file "П-1.pdf" none]
        false insertFileFilter extractNotificationCode,
      fileMarkedProcessed (pathBasename e.2.1) = false)
    ∧ buildDict "i" [FSEntry.file "П-1 (с увед).pdf" none, FSEntry.file "П-1.pdf" none]
        false insertFileFilter extractNotificationCode
      = buildDict "i" [FSEntry.file "П-1 (с увед).pdf" none, FSEntry.file "П-1.pdf" none]
        false insertFileFilter extractNotificationCode :=
  claim_C8_filter_invariant "i" _ false insertFileFilter extractNotificationCode
    (by simp only [wfEntries]; decide)

/-! ## Claim C5: conflict resolution in `buildDict` -/

theorem dictInsert_nil (c full : String) (mt : Option Nat) :
    dictInsert [] c full mt = [(c, full, mt)] := by
  unfold dictInsert dictLookup
  rfl

theorem dictLookup_single (c p : String) (t : Option Nat) :
    dictLookup c [(c, p, t)] = some (p, t) := by
  unfold dictLookup
  simp

theorem dictInsert_existing (c p1 p2 : String) (t1 t2 : Option Nat) :
    dictInsert [(c, p1, t1)] c p2 t2
      = match t1, t2 with
        | some m1, some m2 => if m1 < m2 then [(c, p2, t2)] else [(c, p1, t1)]
        | _, _ => [(c, p1, t1)] := by
  unfold dictInsert
  rw [dictLookup_single]
  cases t1 with
  | none => rfl
  | some m1 =>
    cases t2 with
    | none => rfl
    | some m2 =>
      dsimp only
      by_cases h : m1 < m2
      · rw [if_pos h, if_pos h]
        unfold dictUpdate
        simp
      · rw [if_neg h, if_neg h]

/-- `buildDict` over a flat snapshot of two files whose names extract to
the same canonical code `c`: the dictionary is the first insertion
followed by the conflict-resolving second insertion. -/
theorem buildDict_two_files (root na nb c : String) (ma mb : Option Nat)
    (rec : Bool) (flt : String → String → Bool) (ext : String → Option String)
    (ha : flt (pathJoin root na) na = true) (hb : flt (pathJoin root nb) nb = true)
    (hma : fileMarkedProcessed na = false) (hmb : fileMarkedProcessed nb = false)
    (hra : (ext na).getD "" ≠ "") (hrb : (ext nb).getD "" ≠ "")
    (hca : (canonicalCode (some ((ext na).getD ""))).getD "" = c)
    (hcb : (canonicalCode (some ((ext nb).getD ""))).getD "" = c)
    (hc : c ≠ "") :
    buildDict root [FSEntry.file na ma, FSEntry.file nb mb] rec flt ext
      = dictInsert [(c, pathJoin root na, ma)] c (pathJoin root nb) mb := by
  unfold buildDict
  simp only [scanEntries]
  simp only [processFile, ha, hma, hb, hmb, Bool.not_true, Bool.false_eq_true, if_false]
  rw [if_neg hra, hca, if_neg hc, if_neg hrb, hcb, if_neg hc, dictInsert_nil]

/-- C5: when two files map to the same canonical code, the file with the
strictly greater modification time wins regardless of encounter order;
equal times, or a failing `stat` on either file (`mtime = none`), keep
the first-encountered entry. -/
theorem claim_C5_conflict_resolution
    (root n1 n2 c : String) (mt1 mt2 : Option Nat) (rec : Bool)
    (flt : String → String → Bool) (ext : String → Option String)
    (h1 : flt (pathJoin root n1) n1 = true)
    (h2 : flt (pathJoin root n2) n2 = true)
    (hm1 : fileMarkedProcessed n1 = false)
    (hm2 : fileMarkedProcessed n2 = false)
    (hr1 : (ext n1).getD "" ≠ "")
    (hr2 : (ext n2).getD "" ≠ "")
    (hc1 : (canonicalCode (some ((ext n1).getD ""))).getD "" = c)
    (hc2 : (canonicalCode (some ((ext n2).getD ""))).getD "" = c)
    (hc : c ≠ "") :
    (∀ m1 m2, mt1 = some m1 → mt2 = some m2 → m1 ≠ m2 →
      dictLookup c (buildDict root [FSEntry.file n1 mt1, FSEntry.file n2 mt2] rec flt ext)
        = some (if m1 < m2 then (pathJoin root n2, mt2) else (pathJoin root n1, mt1))
      ∧ dictLookup c (buildDict root [FSEntry.file n2 mt2, FSEntry.file n1 mt1] rec flt ext)
        = some (if m1 < m2 then (pathJoin root n2, mt2) else (pathJoin root n1, mt1)))
    ∧ ((mt1 = mt2 ∨ mt1 = none ∨ mt2 = none) →
      dictLookup c (buildDict root [FSEntry.file n1 mt1, FSEntry.file n2 mt2] rec flt ext)
        = some (pathJoin root n1, mt1)
      ∧ dictLookup c (buildDict root [FSEntry.file n2 mt2, FSEntry.file n1 mt1] rec flt ext)
        = some (pathJoin root n2, mt2)) := by
  have hb12 := buildDict_two_files root n1 n2 c mt1 mt2 rec flt ext
    h1 h2 hm1 hm2 hr1 hr2 hc1 hc2 hc
  have hb21 := buildDict_two_files root n2 n1 c mt2 mt1 rec flt ext
    h2 h1 hm2 hm1 hr2 hr1 hc2 hc1 hc
  constructor
  · intro m1 m2 hmt1 hmt2 hne
    subst hmt1
    subst hmt2
    rw [hb12, hb21, dictInsert_existing, dictInsert_existing]
    dsimp only
    by_cases hlt : m1 < m2
    · have hlt' : ¬ m2 < m1 := by omega
      rw [if_pos hlt, if_pos hlt, if_neg hlt']
      exact ⟨dictLookup_single .., dictLookup_single ..⟩
    · have hlt' : m2 < m1 := by omega
      rw [if_neg hlt, if_neg hlt, if_pos hlt']
      exact ⟨dictLookup_single .., dictLookup_single ..⟩
  · intro htie
    rw [hb12, hb21, dictInsert_existing, dictInsert_existing]
    rcases htie with heq | h1n | h2n
    · subst heq
      cases mt1 with
      | none => exact ⟨dictLookup_single .., dictLookup_single ..⟩
      | some m =>
        dsimp only
        rw [if_neg (by omega), if_neg (by omega), dictLookup_single, dictLookup_single]
        exact ⟨rfl, rfl⟩
    · subst h1n
      cases mt2 with
      | none => exact ⟨dictLookup_single .., dictLookup_single ..⟩
      | some m => exact ⟨dictLookup_single .., dictLookup_single ..⟩
    · subst h2n
      cases mt1 with
      | none => exact ⟨dictLookup_single .., dictLookup_single ..⟩
      | some m => exact ⟨dictLookup_single .., dictLookup_single ..⟩

/-- Witness for C5 at a concrete two-file snapshot. -/
theorem claim_C5_conflict_resolution_witness :
    dictLookup "П-1" (buildDict "r" [FSEntry.file "a П-1.pdf" (some 5),
        FSEntry.file "b П-1.pdf" (some 9)] false insertFileFilter extractNotificationCode)
      = some (if 5 < 9 then (pathJoin "r" "b П-1.pdf", some 9)
              else (pathJoin "r" "a П-1.pdf", some 5))
    ∧ dictLookup "П-1" (buildDict "r" [FSEntry.file "b П-1.pdf" (some 9),
        FSEntry.file "a П-1.pdf" (some 5)] false insertFileFilter extractNotificationCode)
      = some (if 5 < 9 then (pathJoin "r" "b П-1.pdf", some 9)
              else (pathJoin "r" "a П-1.pdf", some 5)) :=
  (claim_C5_conflict_resolution "r" "a П-1.pdf" "b П-1.pdf" "П-1" (some 5) (some 9)
    false insertFileFilter extractNotificationCode
    (by decide) (by decide) (by decide) (by decide) (by decide) (by decide)
    (by decide) (by decide) (by decide)).1 5 9 rfl rfl (by decide)

/-! ## Claim C7: pairing completeness -/

theorem dictKeys_update (c full : String) (mt : Option Nat) (d : Dict) :
    dictKeys (dictUpdate c full mt d) = dictKeys d := by
  induction d with
  | nil => rfl
  | cons e rest ih =>
    simp only [dictUpdate, dictKeys, List.map_cons] at ih ⊢
    by_cases h : e.1 = c
    · rw [if_pos h]
      simp only [ih]
      rw [h]
    · rw [if_neg h]
      simp only [ih]

theorem dictLookup_none_iff {c : String} {d : Dict} :
    dictLookup c d = none ↔ c ∉ dictKeys d := by
  induction d with
  | nil => simp [dictLookup, dictKeys]
  | cons e rest ih =>
    simp only [dictLookup, dictKeys, List.map_cons, List.mem_cons]
    by_cases h : e.1 = c
    · simp [h]
    · simp only [if_neg h, ih, dictKeys]
      constructor
      · intro hn
        intro hor
        rcases hor with hq | hq
        · exact h hq.symm
        · exact hn hq
      · intro hn hmem
        exact hn (Or.inr hmem)

theorem contains_true_iff (l : List String) (a : String) :
    l.contains a = true ↔ a ∈ l := List.elem_iff

theorem dictInsert_keys_nodup {d : Dict} {c full : String} {mt : Option Nat}
    (h : (dictKeys d).Nodup) : (dictKeys (dictInsert d c full mt)).Nodup := by
  unfold dictInsert
  cases hl : dictLookup c d with
  | some v =>
    obtain ⟨p1, t1⟩ := v
    dsimp only
    cases t1 with
    | none => exact h
    | some m1 =>
      cases mt with
      | none => exact h
      | some m2 =>
        dsimp only
        by_cases hlt : m1 < m2
        · rw [if_pos hlt, dictKeys_update]
          exact h
        · rw [if_neg hlt]
          exact h
  | none =>
    have hmem : c ∉ dictKeys d := dictLookup_none_iff.mp hl
    simp only [dictKeys, List.map_append, List.map_cons, List.map_nil]
    rw [List.nodup_append]
    refine ⟨h, List.nodup_singleton c, ?_⟩
    intro a ha hmem1
    simp only [List.mem_singleton] at hmem1
    exact hmem (hmem1 ▸ ha)

theorem processFile_eq_or (flt : String → String → Bool) (ext : String → Option String)
    (dp : String) (d : Dict) (n : String) (mt : Option Nat) :
    processFile flt ext dp d n mt = d
    ∨ processFile flt ext dp d n mt
      = dictInsert d ((canonicalCode (some ((ext n).getD ""))).getD "") (pathJoin dp n) mt := by
  unfold processFile
  by_cases h1 : (!flt (pathJoin dp n) n) = true
  · rw [if_pos h1]
    exact Or.inl rfl
  · rw [if_neg h1]
    by_cases h2 : fileMarkedProcessed n = true
    · rw [if_pos h2]
      exact Or.inl rfl
    · rw [if_neg h2]
      by_cases h3 : (ext n).getD "" = ""
      · rw [if_pos h3]
        exact Or.inl rfl
      · rw [if_neg h3]
        by_cases h4 : (canonicalCode (some ((ext n).getD ""))).getD "" = ""
        · rw [if_pos h4]
          exact Or.inl rfl
        · rw [if_neg h4]
          exact Or.inr rfl

theorem processFile_keys_nodup {flt : String → String → Bool}
    {ext : String → Option String} {dp : String} {d : Dict}
    {n : String} {mt : Option Nat}
    (h : (dictKeys d).Nodup) :
    (dictKeys (processFile flt ext dp d n mt)).Nodup := by
  rcases processFile_eq_or flt ext dp d n mt with heq | heq
  · rw [heq]; exact h
  · rw [heq]; exact dictInsert_keys_nodup h

theorem scanEntries_keys_nodup (rec : Bool) (flt : String → String → Bool)
    (ext : String → Option String) :
    ∀ (dp : String) (acc : Dict) (t : List FSEntry),
      (dictKeys acc).Nodup → (dictKeys (scanEntries rec flt ext dp acc t)).Nodup := by
  intro dp acc t
  induction dp, acc, t using scanEntries.induct rec flt ext with
  | case1 dp acc =>
    intro hacc
    simpa [scanEntries] using hacc
  | case2 dp acc n mt rest ih =>
    intro hacc
    simp only [scanEntries]
    exact ih (processFile_keys_nodup hacc)
  | case3 dp acc n sub rest acc' ihsub ihrest =>
    intro hacc
    simp only [scanEntries]
    have hval : acc' = (if isRejectsName n then acc
        else if rec then scanEntries rec flt ext (pathJoin dp n) acc sub else acc) := rfl
    rw [hval] at ihrest
    by_cases hrj : isRejectsName n
    · simp only [hrj, if_true] at ihrest ⊢
      exact ihrest hacc
    · by_cases hrec : rec
      · simp only [hrec] at ihsub
        simp only [hrj, hrec, if_true, if_false, Bool.false_eq_true] at ihrest ⊢
        exact ihrest (ihsub hacc)
      · simp only [hrj, hrec, if_false, Bool.false_eq_true] at ihrest ⊢
        exact ihrest hacc

theorem buildDict_keys_nodup (root : String) (t : List FSEntry) (rec : Bool)
    (flt : String → String → Bool) (ext : String → Option String) :
    (dictKeys (buildDict root t rec flt ext)).Nodup := by
  unfold buildDict
  exact scanEntries_keys_nodup rec flt ext root [] t (by simp [dictKeys])

theorem length_filter_partition (l : List String) (p : String → Bool) :
    (l.filter p).length + (l.filter (fun a => !p a)).length = l.length := by
  induction l with
  | nil => rfl
  | cons a t ih =>
    by_cases h : p a = true
    · simp only [List.filter_cons, h, Bool.not_true, Bool.false_eq_true, if_true, if_false,
        List.length_cons]
      omega
    · simp only [List.filter_cons, h, Bool.not_eq_true'] at *
      simp only [h, Bool.not_false, if_true, Bool.false_eq_true, if_false, List.length_cons]
      omega

theorem filter_mem_length_comm {A B : List String} (hA : A.Nodup) (hB : B.Nodup) :
    (A.filter (fun c => B.contains c)).length = (B.filter (fun c => A.contains c)).length := by
  have h1 : (A.filter (fun c => B.contains c)).toFinset = A.toFinset ∩ B.toFinset := by
    ext x
    simp [List.mem_toFinset, List.mem_filter, contains_true_iff]
  have h2 : (B.filter (fun c => A.contains c)).toFinset = B.toFinset ∩ A.toFinset := by
    ext x
    simp [List.mem_toFinset, List.mem_filter, contains_true_iff]
  have n1 : (A.filter (fun c => B.contains c)).Nodup := hA.filter _
  have n2 : (B.filter (fun c => A.contains c)).Nodup := hB.filter _
  rw [← List.toFinset_card_of_nodup n1, ← List.toFinset_card_of_nodup n2, h1, h2,
    Finset.inter_comm]

/-- C7: pairing completeness — `|matched| + |unmatchedNotifications| =
|A|`, `|matched| + |unmatchedZepb| = |B|`, the unmatched reports are
disjoint from the matched codes, and the run's `total` equals the number
of notification-side keys at run start. -/
theorem claim_C7_pairing_completeness
    (mainFolder insertFolder outputFolder : String) (recursiveMain recursiveInsert : Bool)
    (mainTree insertTree : List FSEntry) (cancelAt : Nat → Bool)
    (mergeRes : String → String → String → Option String)
    (registryRes : String → List String → Except String String)
    (hm : mainFolder ≠ "") (hi : insertFolder ≠ "") (ho : outputFolder ≠ "") :
    (matchedCodes (buildDict insertFolder insertTree recursiveInsert insertFileFilter extractNotificationCode)
        (buildDict mainFolder mainTree recursiveMain zepbFileFilter extractZepbCode)).length
      + (unmatchedOf (buildDict insertFolder insertTree recursiveInsert insertFileFilter extractNotificationCode)
          (buildDict mainFolder mainTree recursiveMain zepbFileFilter extractZepbCode)).length
      = (dictKeys (buildDict insertFolder insertTree recursiveInsert insertFileFilter extractNotificationCode)).length
    ∧ (matchedCodes (buildDict insertFolder insertTree recursiveInsert insertFileFilter extractNotificationCode)
        (buildDict mainFolder mainTree recursiveMain zepbFileFilter extractZepbCode)).length
      + (unmatchedOf (buildDict mainFolder mainTree recursiveMain zepbFileFilter extractZepbCode)
          (buildDict insertFolder insertTree recursiveInsert insertFileFilter extractNotificationCode)).length
      = (dictKeys (buildDict mainFolder mainTree recursiveMain zepbFileFilter extractZepbCode)).length
    ∧ (∀ c ∈ matchedCodes (buildDict insertFolder insertTree recursiveInsert insertFileFilter extractNotificationCode)
        (buildDict mainFolder mainTree recursiveMain zepbFileFilter extractZepbCode),
        c ∉ (unmatchedOf (buildDict insertFolder insertTree recursiveInsert insertFileFilter extractNotificationCode)
          (buildDict mainFolder mainTree recursiveMain zepbFileFilter extractZepbCode)).map Prod.fst
        ∧ c ∉ (unmatchedOf (buildDict mainFolder mainTree recursiveMain zepbFileFilter extractZepbCode)
          (buildDict insertFolder insertTree recursiveInsert insertFileFilter extractNotificationCode)).map Prod.fst)
    ∧ (mergePdfsHandler mainFolder insertFolder outputFolder recursiveMain recursiveInsert
        mainTree insertTree cancelAt mergeRes registryRes).total
      = (dictKeys (buildDict insertFolder insertTree recursiveInsert insertFileFilter extractNotificationCode)).length := by
  set A := buildDict insertFolder insertTree recursiveInsert insertFileFilter extractNotificationCode with hA
  set B := buildDict mainFolder mainTree recursiveMain zepbFileFilter extractZepbCode with hB
  have hAn : (dictKeys A).Nodup := buildDict_keys_nodup _ _ _ _ _
  have hBn : (dictKeys B).Nodup := buildDict_keys_nodup _ _ _ _ _
  refine ⟨?_, ?_, ?_, ?_⟩
  · rw [matchedCodes, unmatchedOf, List.length_map]
    exact length_filter_partition (dictKeys A) (fun c => (dictKeys B).contains c)
  · rw [matchedCodes, unmatchedOf, List.length_map]
    rw [filter_mem_length_comm hAn hBn]
    exact length_filter_partition (dictKeys B) (fun c => (dictKeys A).contains c)
  · intro c hc
    simp only [matchedCodes, List.mem_filter] at hc
    constructor
    · intro hmem
      simp only [unmatchedOf, List.map_map, List.mem_map, List.mem_filter] at hmem
      obtain ⟨x, ⟨_, hx2⟩, hx3⟩ := hmem
      simp only [Function.comp] at hx3
      rw [hx3] at hx2
      rw [hc.2] at hx2
      simp at hx2
    · intro hmem
      simp only [unmatchedOf, List.map_map, List.mem_map, List.mem_filter] at hmem
      obtain ⟨x, ⟨hx1, hx2⟩, hx3⟩ := hmem
      simp only [Function.comp] at hx3
      rw [hx3] at hx2
      have : c ∈ dictKeys A := hc.1
      rw [← contains_true_iff] at this
      rw [this] at hx2
      simp at hx2
  · unfold mergePdfsHandler
    rw [if_neg (by simp [hm, hi, ho])]
    dsimp only
    rw [← hA, ← hB]
    split <;> rfl

/-- Witness for C7 at a concrete run (one matched code, one ZEPB-only
code). -/
theorem claim_C7_pairing_completeness_witness :
    ("m" : String) ≠ "" ∧
    (mergePdfsHandler "m" "i" "o" false false
      [FSEntry.file "зэпб П-1.pdf" none, FSEntry.file "зэпб СПД-2.pdf" none]
      [FSEntry.file "П-1.pdf" none]
      (fun _ => false) (fun _ _ _ => none) (fun _ _ => Except.ok "r")).total
      = (dictKeys (buildDict "i" [FSEntry.file "П-1.pdf" none] false
          insertFileFilter extractNotificationCode)).length :=
  ⟨by decide,
   (claim_C7_pairing_completeness "m" "i" "o" false false
      [FSEntry.file "зэпб П-1.pdf" none, FSEntry.file "зэпб СПД-2.pdf" none]
      [FSEntry.file "П-1.pdf" none]
      (fun _ => false) (fun _ _ _ => none) (fun _ _ => Except.ok "r")
      (by decide) (by decide) (by decide)).2.2.2⟩

/-! ## Merge-loop counting lemmas (claims C2, C6) -/

theorem mergeLoop_noCancel_counts (iD zD : Dict) (oF : String) (cancelAt : Nat → Bool)
    (mergeRes : String → String → String → Option String)
    (hnc : ∀ i, cancelAt i = false) :
    ∀ (codes : List String) (i : Nat) (st : LoopState),
      (mergeLoop iD zD oF cancelAt mergeRes codes i st).processed
        + (mergeLoop iD zD oF cancelAt mergeRes codes i st).skipped
        = st.processed + st.skipped + codes.length := by
  intro codes
  induction codes with
  | nil => intro i st; simp [mergeLoop]
  | cons code rest ih =>
    intro i st
    simp only [mergeLoop, hnc i, Bool.false_eq_true, if_false]
    split
    · rw [ih]
      simp only [List.length_cons]
      omega
    · split
      · rw [ih]
        simp only [List.length_cons]
        omega
      · split
        · rw [ih]
          simp only [List.length_cons]
          omega
        · rw [ih]
          simp only [List.length_cons]
          omega

theorem mergeLoop_noCancel_skipped (iD zD : Dict) (oF : String) (cancelAt : Nat → Bool)
    (mergeRes : String → String → String → Option String)
    (hnc : ∀ i, cancelAt i = false) :
    ∀ (codes : List String) (i : Nat) (st : LoopState),
      st.skipped + (codes.filter (fun c => !(dictKeys zD).contains c)).length
        ≤ (mergeLoop iD zD oF cancelAt mergeRes codes i st).skipped := by
  intro codes
  induction codes with
  | nil => intro i st; simp [mergeLoop]
  | cons code rest ih =>
    intro i st
    simp only [mergeLoop, hnc i, Bool.false_eq_true, if_false]
    by_cases hct : (dictKeys zD).contains code = true
    · have hb : (!(dictKeys zD).contains code) = false := by rw [hct]; rfl
      have hfl : ((code :: rest).filter (fun c => !(dictKeys zD).contains c))
          = rest.filter (fun c => !(dictKeys zD).contains c) := by
        simp only [List.filter_cons, hb, Bool.false_eq_true, if_false]
      rw [hfl]
      split
      · refine Nat.le_trans ?_ (ih (i + 1) _)
        dsimp only
        omega
      · split
        · refine Nat.le_trans ?_ (ih (i + 1) _)
          dsimp only
          omega
        · split
          · refine Nat.le_trans ?_ (ih (i + 1) _)
            dsimp only
            omega
          · refine Nat.le_trans ?_ (ih (i + 1) _)
            dsimp only
            omega
    · have hcf : (dictKeys zD).contains code = false := by
        cases hq : (dictKeys zD).contains code
        · rfl
        · exact absurd hq hct
      have hz : ((dictLookup code zD).map (·.1)).getD "" = "" := by
        have hnone : dictLookup code zD = none := by
          rw [dictLookup_none_iff]
          intro hmem
          rw [(contains_true_iff _ _).mpr hmem] at hcf
          exact Bool.true_eq_false.mp hcf
        rw [hnone]
        rfl
      rw [if_pos hz]
      have hb : (!(dictKeys zD).contains code) = true := by rw [hcf]; rfl
      have hfl : ((code :: rest).filter (fun c => !(dictKeys zD).contains c))
          = code :: rest.filter (fun c => !(dictKeys zD).contains c) := by
        simp only [List.filter_cons, hb, if_true]
      rw [hfl]
      simp only [List.length_cons]
      refine Nat.le_trans ?_ (ih (i + 1) _)
      dsimp only
      omega

/-! ## Claim C2: what drives the merge loop -/

/-- C2 counterexample: one notification code with no ZEPB counterpart —
the loop *does* run an iteration for it (ghost `attempted = [0]`), the
"no ZEPB path" branch *is* taken (a not-found message is logged and
`skipped` becomes 1), contradicting the claim that such codes never
drive an iteration and are reported solely via the unmatched set. -/
theorem claim_C2_counterexample :
    (mergePdfsHandler "m" "i" "o" false false [] [FSEntry.file "П-1.pdf" none]
      (fun _ => false) (fun _ _ _ => none) (fun _ _ => Except.ok "r")).skipped = 1
    ∧ (mergePdfsHandler "m" "i" "o" false false [] [FSEntry.file "П-1.pdf" none]
      (fun _ => false) (fun _ _ _ => none) (fun _ _ => Except.ok "r")).attempted = [0]
    ∧ (mergePdfsHandler "m" "i" "o" false false [] [FSEntry.file "П-1.pdf" none]
      (fun _ => false) (fun _ _ _ => none) (fun _ _ => Except.ok "r")).unmatchedNotifications
      = [("П-1", "П-1.pdf")] := by
  refine ⟨?_, ?_, ?_⟩ <;>
    (simp only [mergePdfsHandler, buildDict, scanEntries, processFile]; decide)

/-- C2 amended: the merge loop iterates over *all* notification-side
codes, not only the matched pairs; a code with no ZEPB counterpart takes
the "no ZEPB path" branch and increments `skipped` (in addition to being
reported in `unmatchedNotifications`), so in an uncancelled run
`processed + skipped` equals the number of notification codes and
`skipped` is at least the number of unmatched notifications. -/
theorem claim_C2_amended
    (mainFolder insertFolder outputFolder : String) (recursiveMain recursiveInsert : Bool)
    (mainTree insertTree : List FSEntry) (cancelAt : Nat → Bool)
    (mergeRes : String → String → String → Option String)
    (registryRes : String → List String → Except String String)
    (hm : mainFolder ≠ "") (hi : insertFolder ≠ "") (ho : outputFolder ≠ "")
    (hnc : ∀ i, cancelAt i = false) :
    (mergePdfsHandler mainFolder insertFolder outputFolder recursiveMain recursiveInsert
        mainTree insertTree cancelAt mergeRes registryRes).processed
      + (mergePdfsHandler mainFolder insertFolder outputFolder recursiveMain recursiveInsert
        mainTree insertTree cancelAt mergeRes registryRes).skipped
      = (dictKeys (buildDict insertFolder insertTree recursiveInsert
          insertFileFilter extractNotificationCode)).length
    ∧ (unmatchedOf (buildDict insertFolder insertTree recursiveInsert
          insertFileFilter extractNotificationCode)
        (buildDict mainFolder mainTree recursiveMain zepbFileFilter extractZepbCode)).length
      ≤ (mergePdfsHandler mainFolder insertFolder outputFolder recursiveMain recursiveInsert
          mainTree insertTree cancelAt mergeRes registryRes).skipped := by
  unfold mergePdfsHandler
  rw [if_neg (by simp [hm, hi, ho])]
  dsimp only
  set A := buildDict insertFolder insertTree recursiveInsert insertFileFilter extractNotificationCode with hA
  set B := buildDict mainFolder mainTree recursiveMain zepbFileFilter extractZepbCode with hB
  have hcounts := mergeLoop_noCancel_counts A B outputFolder cancelAt mergeRes hnc
    (dictKeys A) 0 initLoopState
  have hskip := mergeLoop_noCancel_skipped A B outputFolder cancelAt mergeRes hnc
    (dictKeys A) 0 initLoopState
  have hun : (unmatchedOf A B).length
      = ((dictKeys A).filter (fun c => !(dictKeys B).contains c)).length := by
    rw [unmatchedOf, List.length_map]
  split
  · constructor
    · simpa [initLoopState] using hcounts
    · rw [hun]
      simpa [initLoopState] using hskip
  · constructor
    · simpa [initLoopState] using hcounts
    · rw [hun]
      simpa [initLoopState] using hskip

/-- Witness for C2 (amended) at a concrete run. -/
theorem claim_C2_amended_witness :
    (mergePdfsHandler "m" "i" "o" false false
        [FSEntry.file "зэпб П-1.pdf" none]
        [FSEntry.file "П-1.pdf" none, FSEntry.file "СПД-2.pdf" none]
        (fun _ => false) (fun _ _ _ => none) (fun _ _ => Except.ok "r")).processed
      + (mergePdfsHandler "m" "i" "o" false false
        [FSEntry.file "зэпб П-1.pdf" none]
        [FSEntry.file "П-1.pdf" none, FSEntry.file "СПД-2.pdf" none]
        (fun _ => false) (fun _ _ _ => none) (fun _ _ => Except.ok "r")).skipped
      = (dictKeys (buildDict "i" [FSEntry.file "П-1.pdf" none, FSEntry.file "СПД-2.pdf" none]
          false insertFileFilter extractNotificationCode)).length
    ∧ (unmatchedOf (buildDict "i" [FSEntry.file "П-1.pdf" none, FSEntry.file "СПД-2.pdf" none]
          false insertFileFilter extractNotificationCode)
        (buildDict "m" [FSEntry.file "зэпб П-1.pdf" none]
          false zepbFileFilter extractZepbCode)).length
      ≤ (mergePdfsHandler "m" "i" "o" false false
          [FSEntry.file "зэпб П-1.pdf" none]
          [FSEntry.file "П-1.pdf" none, FSEntry.file "СПД-2.pdf" none]
          (fun _ => false) (fun _ _ _ => none) (fun _ _ => Except.ok "r")).skipped :=
  claim_C2_amended "m" "i" "o" false false
    [FSEntry.file "зэпб П-1.pdf" none]
    [FSEntry.file "П-1.pdf" none, FSEntry.file "СПД-2.pdf" none]
    (fun _ => false) (fun _ _ _ => none) (fun _ _ => Except.ok "r")
    (by decide) (by decide) (by decide) (fun _ => rfl)

/-! ## Claim C6: merge cancellation bound -/

theorem mergeLoop_cancel_bound (iD zD : Dict) (oF : String) (cancelAt : Nat → Bool)
    (mergeRes : String → String → String → Option String)
    (hmono : ∀ i j, i ≤ j → cancelAt i = true → cancelAt j = true)
    (k : Nat) (hk : cancelAt k = true) :
    ∀ (codes : List String) (i : Nat) (st : LoopState),
      ((mergeLoop iD zD oF cancelAt mergeRes codes i st).processed
          + (mergeLoop iD zD oF cancelAt mergeRes codes i st).skipped
        ≤ st.processed + st.skipped + (k - i))
      ∧ (∀ j ∈ (mergeLoop iD zD oF cancelAt mergeRes codes i st).attempted,
          j ∈ st.attempted ∨ j < k)
      ∧ (st.canceled = true → (mergeLoop iD zD oF cancelAt mergeRes codes i st).canceled = true)
      ∧ (i ≤ k → k < i + codes.length →
          (mergeLoop iD zD oF cancelAt mergeRes codes i st).canceled = true) := by
  intro codes
  induction codes with
  | nil =>
    intro i st
    simp only [mergeLoop]
    exact ⟨by omega, fun j hj => Or.inl hj, fun h => h,
      fun h1 h2 => absurd h2 (by simp; omega)⟩
  | cons code rest ih =>
    intro i st
    by_cases hci : cancelAt i = true
    · simp only [mergeLoop, hci, if_true]
      refine ⟨by omega, fun j hj => Or.inl hj, fun _ => trivial, fun _ _ => trivial⟩
    · have hik : i < k := by
        by_contra hle
        push_neg at hle
        exact hci (hmono k i hle hk)
      simp only [mergeLoop, hci, Bool.false_eq_true, if_false]
      have step : ∀ st' : LoopState,
          st'.processed + st'.skipped = st.processed + st.skipped + 1 →
          st'.attempted = st.attempted ++ [i] →
          st'.canceled = st.canceled →
          ((mergeLoop iD zD oF cancelAt mergeRes rest (i + 1) st').processed
              + (mergeLoop iD zD oF cancelAt mergeRes rest (i + 1) st').skipped
            ≤ st.processed + st.skipped + (k - i))
          ∧ (∀ j ∈ (mergeLoop iD zD oF cancelAt mergeRes rest (i + 1) st').attempted,
              j ∈ st.attempted ∨ j < k)
          ∧ (st.canceled = true →
              (mergeLoop iD zD oF cancelAt mergeRes rest (i + 1) st').canceled = true)
          ∧ (i ≤ k → k < i + (code :: rest).length →
              (mergeLoop iD zD oF cancelAt mergeRes rest (i + 1) st').canceled = true) := by
        intro st' h1 h2 h3
        obtain ⟨ha, hb, hc, hd⟩ := ih (i + 1) st'
        refine ⟨?_, ?_, ?_, ?_⟩
        · exact Nat.le_trans ha (by omega)
        · intro j hj
          rcases hb j hj with hmem | hlt
          · rw [h2] at hmem
            rcases List.mem_append.mp hmem with h4 | h4
            · exact Or.inl h4
            · simp only [List.mem_singleton] at h4
              exact Or.inr (h4 ▸ hik)
          · exact Or.inr hlt
        · intro hcanc
          exact hc (h3 ▸ hcanc)
        · intro _ hlen
          apply hd
          · omega
          · simp only [List.length_cons] at hlen
            omega
      split
      · exact step _ rfl rfl rfl
      · split
        · exact step _ rfl rfl rfl
        · split
          · refine step _ ?_ rfl rfl
            dsimp only
            omega
          · exact step _ rfl rfl rfl

/-- C6: if the (monotone) cancellation flag is already set at checkpoint
`k` and `k` is a real iteration index, the run ends canceled, at most `k`
pairs are counted (`processed + skipped ≤ k`), and no pair at index `≥ k`
is ever attempted. -/
theorem claim_C6_merge_cancellation
    (mainFolder insertFolder outputFolder : String) (recursiveMain recursiveInsert : Bool)
    (mainTree insertTree : List FSEntry) (cancelAt : Nat → Bool)
    (mergeRes : String → String → String → Option String)
    (registryRes : String → List String → Except String String) (k : Nat)
    (hm : mainFolder ≠ "") (hi : insertFolder ≠ "") (ho : outputFolder ≠ "")
    (hmono : ∀ i j, i ≤ j → cancelAt i = true → cancelAt j = true)
    (hk : cancelAt k = true)
    (hklen : k < (dictKeys (buildDict insertFolder insertTree recursiveInsert
        insertFileFilter extractNotificationCode)).length) :
    (mergePdfsHandler mainFolder insertFolder outputFolder recursiveMain recursiveInsert
        mainTree insertTree cancelAt mergeRes registryRes).processed
      + (mergePdfsHandler mainFolder insertFolder outputFolder recursiveMain recursiveInsert
        mainTree insertTree cancelAt mergeRes registryRes).skipped ≤ k
    ∧ (mergePdfsHandler mainFolder insertFolder outputFolder recursiveMain recursiveInsert
        mainTree insertTree cancelAt mergeRes registryRes).canceled = true
    ∧ (∀ j ∈ (mergePdfsHandler mainFolder insertFolder outputFolder recursiveMain recursiveInsert
        mainTree insertTree cancelAt mergeRes registryRes).attempted, j < k) := by
  unfold mergePdfsHandler
  rw [if_neg (by simp [hm, hi, ho])]
  dsimp only
  set A := buildDict insertFolder insertTree recursiveInsert insertFileFilter
    extractNotificationCode with hA
  set B := buildDict mainFolder mainTree recursiveMain zepbFileFilter extractZepbCode with hB
  obtain ⟨ha, hb, _, hd⟩ := mergeLoop_cancel_bound A B outputFolder cancelAt mergeRes
    hmono k hk (dictKeys A) 0 initLoopState
  have hcanc : (mergeLoop A B outputFolder cancelAt mergeRes (dictKeys A) 0
      initLoopState).canceled = true := hd (Nat.zero_le k) (by simpa using hklen)
  have hatt : ∀ j ∈ (mergeLoop A B outputFolder cancelAt mergeRes (dictKeys A) 0
      initLoopState).attempted, j < k := by
    intro j hj
    rcases hb j hj with hmem | hlt
    · simp [initLoopState] at hmem
    · exact hlt
  split
  · exact ⟨by simpa [initLoopState] using ha, hcanc, hatt⟩
  · exact ⟨by simpa [initLoopState] using ha, hcanc, hatt⟩

/-- Witness for C6: the flag observed set from the very first checkpoint
of a one-pair run. -/
theorem claim_C6_merge_cancellation_witness :
    (mergePdfsHandler "m" "i" "o" false false [] [FSEntry.file "П-1.pdf" none]
      (fun _ => true) (fun _ _ _ => none) (fun _ _ => Except.ok "r")).processed
      + (mergePdfsHandler "m" "i" "o" false false [] [FSEntry.file "П-1.pdf" none]
        (fun _ => true) (fun _ _ _ => none) (fun _ _ => Except.ok "r")).skipped ≤ 0
    ∧ (mergePdfsHandler "m" "i" "o" false false [] [FSEntry.file "П-1.pdf" none]
        (fun _ => true) (fun _ _ _ => none) (fun _ _ => Except.ok "r")).canceled = true
    ∧ (∀ j ∈ (mergePdfsHandler "m" "i" "o" false false [] [FSEntry.file "П-1.pdf" none]
        (fun _ => true) (fun _ _ _ => none) (fun _ _ => Except.ok "r")).attempted, j < 0) :=
  claim_C6_merge_cancellation "m" "i" "o" false false [] [FSEntry.file "П-1.pdf" none]
    (fun _ => true) (fun _ _ _ => none) (fun _ _ => Except.ok "r") 0
    (by decide) (by decide) (by decide) (fun _ _ _ _ => rfl) rfl
    (by simp only [buildDict, scanEntries, processFile]; decide)

/-! ## Claim C3: registry-generation failure -/

/-- C3 counterexample: a run with one successful merge whose registry
generation throws.  The handler's outer catch *does* add an error entry
(`errors` goes from `[]` at the end of the loop to one message),
contradicting the claim that the counters-and-errors triple is exactly
what it was at the end of the loop.  The registry identifier is `none`
and the counters survive, but `errors` does not. -/
theorem claim_C3_counterexample :
    (mergePdfsHandler "m" "i" "o" false false
      [FSEntry.file "зэпб П-1.pdf" none] [FSEntry.file "П-1.pdf" none]
      (fun _ => false) (fun _ _ _ => none) (fun _ _ => Except.error "disk full")).errors
      = ["Ошибка объединения: disk full"]
    ∧ (mergeLoop
        (buildDict "i" [FSEntry.file "П-1.pdf" none] false insertFileFilter extractNotificationCode)
        (buildDict "m" [FSEntry.file "зэпб П-1.pdf" none] false zepbFileFilter extractZepbCode)
        "o" (fun _ => false) (fun _ _ _ => none)
        (dictKeys (buildDict "i" [FSEntry.file "П-1.pdf" none] false insertFileFilter
          extractNotificationCode)) 0 initLoopState).errors = []
    ∧ (mergePdfsHandler "m" "i" "o" false false
      [FSEntry.file "зэпб П-1.pdf" none] [FSEntry.file "П-1.pdf" none]
      (fun _ => false) (fun _ _ _ => none) (fun _ _ => Except.error "disk full")).processed = 1
    ∧ (mergePdfsHandler "m" "i" "o" false false
      [FSEntry.file "зэпб П-1.pdf" none] [FSEntry.file "П-1.pdf" none]
      (fun _ => false) (fun _ _ _ => none) (fun _ _ => Except.error "disk full")).registry
      = none := by
  refine ⟨?_, ?_, ?_, ?_⟩ <;>
    (simp only [mergePdfsHandler, buildDict, scanEntries, processFile]; decide)

/-- C3 amended: a registry-generation failure reaches the handler's outer
catch: `processed`, `skipped` and `canceled` are exactly the loop's final
values and the registry identifier is `none`, but one error message
(`Ошибка объединения: <e>`) is appended to both `errors` and `log`, and
the unmatched reports of the returned payload are emptied. -/
theorem claim_C3_amended
    (mainFolder insertFolder outputFolder : String) (recursiveMain recursiveInsert : Bool)
    (mainTree insertTree : List FSEntry) (cancelAt : Nat → Bool)
    (mergeRes : String → String → String → Option String)
    (registryRes : String → List String → Except String String)
    (A B : Dict) (fin : LoopState) (e : String)
    (hm : mainFolder ≠ "") (hi : insertFolder ≠ "") (ho : outputFolder ≠ "")
    (hA : A = buildDict insertFolder insertTree recursiveInsert
      insertFileFilter extractNotificationCode)
    (hB : B = buildDict mainFolder mainTree recursiveMain zepbFileFilter extractZepbCode)
    (hfin : fin = mergeLoop A B outputFolder cancelAt mergeRes (dictKeys A) 0 initLoopState)
    (hnames : fin.processedNames ≠ [])
    (hreg : registryRes outputFolder fin.processedNames = Except.error e) :
    (mergePdfsHandler mainFolder insertFolder outputFolder recursiveMain recursiveInsert
        mainTree insertTree cancelAt mergeRes registryRes).processed = fin.processed
    ∧ (mergePdfsHandler mainFolder insertFolder outputFolder recursiveMain recursiveInsert
        mainTree insertTree cancelAt mergeRes registryRes).skipped = fin.skipped
    ∧ (mergePdfsHandler mainFolder insertFolder outputFolder recursiveMain recursiveInsert
        mainTree insertTree cancelAt mergeRes registryRes).canceled = fin.canceled
    ∧ (mergePdfsHandler mainFolder insertFolder outputFolder recursiveMain recursiveInsert
        mainTree insertTree cancelAt mergeRes registryRes).registry = none
    ∧ (mergePdfsHandler mainFolder insertFolder outputFolder recursiveMain recursiveInsert
        mainTree insertTree cancelAt mergeRes registryRes).errors
      = fin.errors ++ ["Ошибка объединения: " ++ e]
    ∧ (mergePdfsHandler mainFolder insertFolder outputFolder recursiveMain recursiveInsert
        mainTree insertTree cancelAt mergeRes registryRes).log
      = fin.log ++ ["Ошибка объединения: " ++ e]
    ∧ (mergePdfsHandler mainFolder insertFolder outputFolder recursiveMain recursiveInsert
        mainTree insertTree cancelAt mergeRes registryRes).unmatchedNotifications = [] := by
  unfold mergePdfsHandler
  rw [if_neg (by simp [hm, hi, ho])]
  dsimp only
  rw [← hA, ← hB, ← hfin]
  have hempty : fin.processedNames.isEmpty = false := by
    rw [List.isEmpty_eq_false_iff_exists_mem]
    cases hq : fin.processedNames with
    | nil => exact absurd hq hnames
    | cons a t => exact ⟨a, by simp⟩
  rw [hempty]
  simp only [Bool.false_eq_true, if_false, hreg, Except.map_error]
  exact ⟨rfl, rfl, rfl, rfl, rfl, rfl, rfl⟩

/-- Witness for C3 (amended) at a concrete run. -/
theorem claim_C3_amended_witness :
    (mergePdfsHandler "m" "i" "o" false false
      [FSEntry.file "зэпб П-1.pdf" none] [FSEntry.file "П-1.pdf" none]
      (fun _ => false) (fun _ _ _ => none) (fun _ _ => Except.error "no space")).registry = none
    ∧ (mergePdfsHandler "m" "i" "o" false false
      [FSEntry.file "зэпб П-1.pdf" none] [FSEntry.file "П-1.pdf" none]
      (fun _ => false) (fun _ _ _ => none) (fun _ _ => Except.error "no space")).errors
      = (mergeLoop
          (buildDict "i" [FSEntry.file "П-1.pdf" none] false insertFileFilter
            extractNotificationCode)
          (buildDict "m" [FSEntry.file "зэпб П-1.pdf" none] false zepbFileFilter
            extractZepbCode)
          "o" (fun _ => false) (fun _ _ _ => none)
          (dictKeys (buildDict "i" [FSEntry.file "П-1.pdf" none] false insertFileFilter
            extractNotificationCode)) 0 initLoopState).errors
        ++ ["Ошибка объединения: " ++ "no space"] := by
  have h := claim_C3_amended "m" "i" "o" false false
    [FSEntry.file "зэпб П-1.pdf" none] [FSEntry.file "П-1.pdf" none]
    (fun _ => false) (fun _ _ _ => none) (fun _ _ => Except.error "no space")
    (buildDict "i" [FSEntry.file "П-1.pdf" none] false insertFileFilter
      extractNotificationCode)
    (buildDict "m" [FSEntry.file "зэпб П-1.pdf" none] false zepbFileFilter extractZepbCode)
    (mergeLoop
      (buildDict "i" [FSEntry.file "П-1.pdf" none] false insertFileFilter
        extractNotificationCode)
      (buildDict "m" [FSEntry.file "зэпб П-1.pdf" none] false zepbFileFilter extractZepbCode)
      "o" (fun _ => false) (fun _ _ _ => none)
      (dictKeys (buildDict "i" [FSEntry.file "П-1.pdf" none] false insertFileFilter
        extractNotificationCode)) 0 initLoopState)
    "no space" (by decide) (by decide) (by decide) rfl rfl rfl
    (by simp only [buildDict, scanEntries, processFile]; decide) rfl
  exact ⟨h.2.2.2.1, h.2.2.2.2.1⟩

/-! ## Claim C4: compress-pipeline cancellation -/

theorem compressLoop_cancel_independent (oF : String) (total : Nat)
    (singleRes : String → String → FileProcessResult) (gsCmd : Option String)
    (quality : Nat) (c1 c2 : Nat → Bool) :
    ∀ (pdfs : List String) (i : Nat) (r1 r2 : CompressRunResult),
      r1.processed = r2.processed → r1.total = r2.total → r1.log = r2.log →
      r1.used = r2.used → r1.files = r2.files → r1.attempted = r2.attempted →
      (compressLoop oF total singleRes gsCmd quality c1 pdfs i r1).processed
        = (compressLoop oF total singleRes gsCmd quality c2 pdfs i r2).processed
      ∧ (compressLoop oF total singleRes gsCmd quality c1 pdfs i r1).total
        = (compressLoop oF total singleRes gsCmd quality c2 pdfs i r2).total
      ∧ (compressLoop oF total singleRes gsCmd quality c1 pdfs i r1).log
        = (compressLoop oF total singleRes gsCmd quality c2 pdfs i r2).log
      ∧ (compressLoop oF total singleRes gsCmd quality c1 pdfs i r1).used
        = (compressLoop oF total singleRes gsCmd quality c2 pdfs i r2).used
      ∧ (compressLoop oF total singleRes gsCmd quality c1 pdfs i r1).files
        = (compressLoop oF total singleRes gsCmd quality c2 pdfs i r2).files
      ∧ (compressLoop oF total singleRes gsCmd quality c1 pdfs i r1).attempted
        = (compressLoop oF total singleRes gsCmd quality c2 pdfs i r2).attempted := by
  intro pdfs
  induction pdfs with
  | nil =>
    intro i r1 r2 h1 h2 h3 h4 h5 h6
    simp only [compressLoop]
    exact ⟨h1, h2, h3, h4, h5, h6⟩
  | cons f rest ih =>
    intro i r1 r2 h1 h2 h3 h4 h5 h6
    simp only [compressLoop]
    apply ih <;> (dsimp only; split <;> simp [h1, h2, h3, h4, h5, h6])

/-- C4: the claim is right and the code is wrong — the `compressFiles`
loop contains no cancellation checkpoint at all.  The flag set by
`cancel-compress` only suppresses forwarding of progress events (inside
the handler's callback); every field of the compress result other than
the ghost `progressEvents` list is independent of the flag, and at the
failing input (two files, flag observed set from the start) both files
are still attempted and compressed while the spec requires the loop to
stop at the next per-file checkpoint. -/
theorem claim_C4_compress_cancel_dead :
    (∀ (files : List String) (outputFolder : String) (quality : Nat)
      (statIsPdfFile : String → Bool) (gsCmd : Option String)
      (singleRes : String → String → FileProcessResult) (c1 c2 : Nat → Bool),
      (compressFiles files outputFolder quality statIsPdfFile gsCmd singleRes c1).processed
        = (compressFiles files outputFolder quality statIsPdfFile gsCmd singleRes c2).processed
      ∧ (compressFiles files outputFolder quality statIsPdfFile gsCmd singleRes c1).total
        = (compressFiles files outputFolder quality statIsPdfFile gsCmd singleRes c2).total
      ∧ (compressFiles files outputFolder quality statIsPdfFile gsCmd singleRes c1).log
        = (compressFiles files outputFolder quality statIsPdfFile gsCmd singleRes c2).log
      ∧ (compressFiles files outputFolder quality statIsPdfFile gsCmd singleRes c1).files
        = (compressFiles files outputFolder quality statIsPdfFile gsCmd singleRes c2).files
      ∧ (compressFiles files outputFolder quality statIsPdfFile gsCmd singleRes c1).attempted
        = (compressFiles files outputFolder quality statIsPdfFile gsCmd singleRes c2).attempted)
    ∧ (compressFiles ["a.pdf", "b.pdf"] "out" 30 (fun _ => true) none
        (fun f _ => { name := pathBasename f, ok := true, inSize := none, outSize := none,
                      error := none, notes := some "fallback" })
        (fun _ => true)).attempted = [0, 1]
    ∧ (compressFiles ["a.pdf", "b.pdf"] "out" 30 (fun _ => true) none
        (fun f _ => { name := pathBasename f, ok := true, inSize := none, outSize := none,
                      error := none, notes := some "fallback" })
        (fun _ => true)).processed = 2
    ∧ (compressFiles ["a.pdf", "b.pdf"] "out" 30 (fun _ => true) none
        (fun f _ => { name := pathBasename f, ok := true, inSize := none, outSize := none,
                      error := none, notes := some "fallback" })
        (fun _ => true)).progressEvents = [] := by
  refine ⟨?_, by decide, by decide, by decide⟩
  intro files outputFolder quality statIsPdfFile gsCmd singleRes c1 c2
  unfold compressFiles
  by_cases hempty : files.isEmpty
  · rw [if_pos hempty, if_pos hempty]
    exact ⟨rfl, rfl, rfl, rfl, rfl⟩
  · rw [if_neg hempty, if_neg hempty]
    by_cases hout : outputFolder = ""
    · rw [if_pos hout, if_pos hout]
      exact ⟨rfl, rfl, rfl, rfl, rfl⟩
    · rw [if_neg hout, if_neg hout]
      dsimp only
      obtain ⟨h1, h2, h3, h4, h5, _⟩ := compressLoop_cancel_independent outputFolder
        (files.filter fun f => statIsPdfFile f && strEndsWith (jsLowerStr f) ".pdf").length
        singleRes gsCmd quality c1 c2
        (files.filter fun f => statIsPdfFile f && strEndsWith (jsLowerStr f) ".pdf") 0
        _ _ rfl rfl rfl rfl rfl rfl
      obtain ⟨_, _, _, _, _, h6⟩ := compressLoop_cancel_independent outputFolder
        (files.filter fun f => statIsPdfFile f && strEndsWith (jsLowerStr f) ".pdf").length
        singleRes gsCmd quality c1 c2
        (files.filter fun f => statIsPdfFile f && strEndsWith (jsLowerStr f) ".pdf") 0
        _ _ rfl rfl rfl rfl rfl rfl
      exact ⟨h1, h2, by rw [h3], h5, h6⟩

/-! ## Claim C1 (amended): prefix selection, universally -/

theorem dropWhile_all_append {p : Char → Bool} {l : List Char} {x : Char} {r : List Char}
    (hl : ∀ a ∈ l, p a = true) (hx : p x = false) :
    (l ++ x :: r).dropWhile p = x :: r := by
  induction l with
  | nil => simp [List.dropWhile_cons, hx]
  | cons a t ih =>
    have ha : p a = true := hl a (by simp)
    simp only [List.cons_append, List.dropWhile_cons, ha, if_true]
    exact ih fun b hb => hl b (by simp [hb])

theorem pathDirname_append (f n : String) (hf : goodName f = true) (hn : goodName n = true) :
    pathDirname (f ++ "/" ++ n) = f := by
  have hfne : f.data ≠ [] := by
    simp only [goodName, Bool.and_eq_true, Bool.not_eq_true'] at hf
    simpa [List.isEmpty_iff] using hf.1
  have hfns : ∀ c ∈ f.data, c ≠ '/' := by
    simp only [goodName, Bool.and_eq_true, List.all_eq_true] at hf
    intro c hc
    simpa using hf.2 c hc
  have hnne : n.data ≠ [] := by
    simp only [goodName, Bool.and_eq_true, Bool.not_eq_true'] at hn
    simpa [List.isEmpty_iff] using hn.1
  have hnns : ∀ c ∈ n.data, c ≠ '/' := by
    simp only [goodName, Bool.and_eq_true, List.all_eq_true] at hn
    intro c hc
    simpa using hn.2 c hc
  have hdata : (f ++ "/" ++ n).data = f.data ++ '/' :: n.data := by
    rw [data_append, data_append]
    simp
  have hne : (f ++ "/" ++ n) ≠ "" := by
    intro h
    have : (f ++ "/" ++ n).data = [] := by rw [h]
    rw [hdata] at this
    simp at this
  unfold pathDirname
  rw [if_neg hne, hdata]
  have hrev : (f.data ++ '/' :: n.data).reverse = n.data.reverse ++ '/' :: f.data.reverse := by
    rw [List.reverse_append, List.reverse_cons]
    simp
  rw [hrev]
  obtain ⟨c, t, hct⟩ := List.exists_cons_of_ne_nil (l := n.data.reverse) (by simpa using hnne)
  have hchd : c ∈ n.data := by
    have : c ∈ n.data.reverse := by rw [hct]; simp
    exact List.mem_reverse.mp this
  have hdw : (n.data.reverse ++ '/' :: f.data.reverse).dropWhile (· = '/')
      = n.data.reverse ++ '/' :: f.data.reverse := by
    rw [hct]
    simp only [List.cons_append, List.dropWhile_cons]
    rw [if_neg]
    simp only [decide_eq_true_eq]
    exact hnns c hchd
  rw [hdw]
  have hdw2 : (n.data.reverse ++ '/' :: f.data.reverse).dropWhile (· ≠ '/')
      = '/' :: f.data.reverse := by
    apply dropWhile_all_append
    · intro a ha
      simp only [decide_eq_true_eq]
      exact hnns a (List.mem_reverse.mp ha)
    · simp
  rw [hdw2]
  dsimp only
  rw [if_neg (by simpa using hfne), List.reverse_reverse]

theorem matchNumTail_head {t u : List Char} (h : matchNumTail t = some u) :
    t.head? = some '-' := by
  rw [matchNumTail.eq_def] at h
  split at h
  · simp
  · simp at h

theorem listPrefixCI_eq_of_length_eq :
    ∀ (p q s : List Char), listPrefixCI p s = true → listPrefixCI q s = true →
      p.length = q.length → (∀ c ∈ p, jsUpperChar c = c) → (∀ c ∈ q, jsUpperChar c = c) →
      p = q := by
  intro p
  induction p with
  | nil =>
    intro q s _ _ hlen _ _
    exact (List.eq_nil_of_length_eq_zero hlen.symm).symm
  | cons a p' ih =>
    intro q s hp hq hlen hsp hsq
    cases q with
    | nil => simp at hlen
    | cons b q' =>
      cases s with
      | nil => simp [listPrefixCI] at hp
      | cons x s' =>
        simp only [listPrefixCI, Bool.and_eq_true] at hp hq
        have h1 : jsUpperChar a = jsUpperChar x := by
          have := hp.1
          simpa [charsEqCI] using this
        have h2 : jsUpperChar b = jsUpperChar x := by
          have := hq.1
          simpa [charsEqCI] using this
        have hab : a = b := by
          calc a = jsUpperChar a := (hsp a (by simp)).symm
            _ = jsUpperChar x := h1
            _ = jsUpperChar b := h2.symm
            _ = b := hsq b (by simp)
        rw [hab]
        rw [ih q' s' hp.2 hq.2 (by simpa using hlen)
          (fun c hc => hsp c (by simp [hc])) (fun c hc => hsq c (by simp [hc]))]

theorem listPrefixCI_hyphen_clash :
    ∀ (p q s : List Char), listPrefixCI p s = true → listPrefixCI q s = true →
      p.length < q.length → (∀ c ∈ q, jsUpperChar c = c ∧ c ≠ '-') →
      (s.drop p.length).head? = some '-' → False := by
  intro p
  induction p with
  | nil =>
    intro q s _ hq hlen hqs hhead
    cases q with
    | nil => simp at hlen
    | cons b q' =>
      cases s with
      | nil => simp [listPrefixCI] at hq
      | cons x s' =>
        simp only [List.length_nil, List.drop_zero, List.head?_cons, Option.some.injEq] at hhead
        simp only [listPrefixCI, Bool.and_eq_true] at hq
        have h1 : jsUpperChar b = jsUpperChar x := by
          have := hq.1
          simpa [charsEqCI] using this
        obtain ⟨hstab, hneq⟩ := hqs b (by simp)
        apply hneq
        calc b = jsUpperChar b := hstab.symm
          _ = jsUpperChar x := h1
          _ = jsUpperChar '-' := by rw [hhead]
          _ = '-' := by decide
  | cons a p' ih =>
    intro q s hp hq hlen hqs hhead
    cases q with
    | nil => simp at hlen
    | cons b q' =>
      cases s with
      | nil => simp [listPrefixCI] at hp
      | cons x s' =>
        simp only [listPrefixCI, Bool.and_eq_true] at hp hq
        simp only [List.length_cons] at hlen
        exact ih q' s' hp.2 hq.2 (by omega) (fun c hc => hqs c (by simp [hc]))
          (by simpa using hhead)

/-- At a fixed position, at most one vocabulary alternative can be
followed by a successful `-\d+(?:\.\d+)?` tail: the prefixes are
case-stable and hyphen-free, and the tail demands a literal `-` right
after the prefix. -/
theorem prefix_tail_unique (p q s : List Char)
    (hps : ∀ c ∈ p, jsUpperChar c = c ∧ c ≠ '-')
    (hqs : ∀ c ∈ q, jsUpperChar c = c ∧ c ≠ '-')
    (hp : listPrefixCI p s = true) (hq : listPrefixCI q s = true)
    {tp tq : List Char}
    (htp : matchNumTail (s.drop p.length) = some tp)
    (htq : matchNumTail (s.drop q.length) = some tq) : p = q := by
  rcases Nat.lt_trichotomy p.length q.length with hlt | heq | hgt
  · exact absurd (matchNumTail_head htp) (fun h =>
      listPrefixCI_hyphen_clash p q s hp hq hlt hqs h)
  · exact listPrefixCI_eq_of_length_eq p q s hp hq heq
      (fun c hc => (hps c hc).1) (fun c hc => (hqs c hc).1)
  · exact absurd (matchNumTail_head htq) (fun h =>
      (listPrefixCI_hyphen_clash q p s hq hp hgt hps h).elim)

/-- Walking the ordered alternation: if any alternative `p` of the list
matches (case-insensitively) at the current position with a successful
number tail, the alternation's result is exactly `p`'s match — no other
alternative, earlier or later in the order, can claim the position. -/
theorem matchCodeAtAux_of_mem :
    ∀ (l : List String) (p : String), p ∈ l →
      (∀ q ∈ l, ∀ c ∈ q.data, jsUpperChar c = c ∧ c ≠ '-') →
      ∀ (s t : List Char), listPrefixCI p.data s = true →
      matchNumTail (s.drop p.data.length) = some t →
      matchCodeAtAux l s = some (s.take p.data.length ++ t) := by
  intro l
  induction l with
  | nil =>
    intro p hp
    simp at hp
  | cons q l' ih =>
    intro p hp hstab s t hpre ht
    rcases List.mem_cons.mp hp with heq | hmem
    · subst heq
      simp only [matchCodeAtAux, hpre, if_true, ht]
    · simp only [matchCodeAtAux]
      by_cases hqpre : listPrefixCI q.data s = true
      · rw [if_pos hqpre]
        cases hq : matchNumTail (s.drop q.data.length) with
        | none => exact ih p hmem (fun r hr => hstab r (by simp [hr])) s t hpre ht
        | some tq =>
          have hdq : p.data = q.data :=
            prefix_tail_unique p.data q.data s
              (hstab p hp) (hstab q (by simp)) hpre hqpre ht hq
          have hpq : p = q := by
            cases p
            cases q
            simp only [] at hdq
            rw [hdq]
          subst hpq
          rw [ht] at hq
          simp only [Option.some.injEq] at hq
          rw [hq]
      · rw [if_neg hqpre]
        exact ih p hmem (fun r hr => hstab r (by simp [hr])) s t hpre ht

theorem listPrefixB_mem {pat s : List Char} {c : Char}
    (h : listPrefixB pat s = true) (hc : c ∈ pat) : c ∈ s := by
  induction pat generalizing s with
  | nil => simp at hc
  | cons a t ih =>
    cases s with
    | nil => simp [listPrefixB] at h
    | cons b s' =>
      simp only [listPrefixB, Bool.and_eq_true, decide_eq_true_eq] at h
      rcases List.mem_cons.mp hc with hx | hx
      · rw [hx, ← h.1]
        simp
      · exact List.mem_cons_of_mem b (ih h.2 hx)

theorem listContainsB_mem {pat l : List Char} {c : Char}
    (h : listContainsB pat l = true) (hc : c ∈ pat) : c ∈ l := by
  induction l with
  | nil =>
    simp only [listContainsB, List.isEmpty_iff] at h
    rw [h] at hc
    simp at hc
  | cons a rest ih =>
    simp only [listContainsB, Bool.or_eq_true] at h
    rcases h with h | h
    · exact listPrefixB_mem h hc
    · exact List.mem_cons_of_mem a (ih h)

theorem listContainsB_single {c : Char} {l : List Char} (h : c ∈ l) :
    listContainsB [c] l = true := by
  induction l with
  | nil => simp at h
  | cons a rest ih =>
    simp only [listContainsB, Bool.or_eq_true]
    rcases List.mem_cons.mp h with hx | hx
    · left
      simp [listPrefixB, hx]
    · right
      exact ih hx

/-- On the regex path, the full vocabulary prefix always wins: whenever
some prefix matches at the current position with `-digits` following,
the alternation returns exactly that prefix's match, for every input
string. -/
theorem regex_alternation_full_code (p : String) (hp : p ∈ PREFIXES)
    (s t : List Char) (hpre : listPrefixCI p.data s = true)
    (ht : matchNumTail (s.drop p.data.length) = some t) :
    matchCodeAt s = some (s.take p.data.length ++ t) := by
  unfold matchCodeAt
  exact matchCodeAtAux_of_mem PREFIXES p hp (by decide) s t hpre ht

/-- Extractor-level consequence on bare names: a filename that starts
with a vocabulary prefix followed by `-digits` extracts to exactly that
full code, uppercased, under both extractors. -/
theorem extract_code_at_head (p : String) (hp : p ∈ PREFIXES)
    (s t : List Char) (hs : ∀ c ∈ s, c ≠ '/')
    (hpre : listPrefixCI p.data s = true)
    (ht : matchNumTail (s.drop p.data.length) = some t) :
    extractZepbCode (String.mk s)
      = some (String.mk ((s.take p.data.length ++ t).map jsUpperChar))
    ∧ extractNotificationCode (String.mk s)
      = some (String.mk ((s.take p.data.length ++ t).map jsUpperChar)) := by
  have hpne : p.data ≠ [] := by
    have hall : ∀ q ∈ PREFIXES, q.data ≠ [] := by decide
    exact hall p hp
  have hsne : s ≠ [] := by
    intro hnil
    rw [hnil] at hpre
    cases hq : p.data with
    | nil => exact hpne hq
    | cons a r =>
      rw [hq] at hpre
      simp [listPrefixCI] at hpre
  have hcrm : codeRegexMatch s = some (s.take p.data.length ++ t) := by
    obtain ⟨c, s', hcs⟩ := List.exists_cons_of_ne_nil hsne
    subst hcs
    simp only [codeRegexMatch]
    rw [regex_alternation_full_code p hp _ t hpre ht]
  have hzepb : extractZepbCode (String.mk s)
      = some (String.mk ((s.take p.data.length ++ t).map jsUpperChar)) := by
    unfold extractZepbCode
    rw [show (String.mk s).data = s from rfl, hcrm]
    rfl
  refine ⟨hzepb, ?_⟩
  rw [extract_eq_on_bare (String.mk s) hs]
  exact hzepb

/-- When the filename has no regex code, `extractNotificationCode`
reduces to the folder fallback: the first vocabulary prefix (in array
order) contained in the uppercased parent-folder name, combined with the
filename's first bare number. -/
theorem extractNotification_folder_fallback (f n : String)
    (hf : goodName f = true) (hfd : f ≠ ".") (hn : goodName n = true)
    (hcrm : codeRegexMatch n.data = none) :
    extractNotificationCode (pathJoin f n)
      = match PREFIXES.find? (fun p => listContainsB p.data (jsUpperStr f).data) with
        | some p =>
          match firstNumberMatch n.data with
          | some nm => some (jsUpperStr (p ++ "-" ++ String.mk nm))
          | none => none
        | none => none := by
  have hfne : f ≠ "" := by
    intro h
    rw [h] at hf
    simp [goodName] at hf
  have hfns : ∀ c ∈ f.data, c ≠ '/' := by
    simp only [goodName, Bool.and_eq_true, List.all_eq_true] at hf
    intro c hc
    simpa using hf.2 c hc
  have hbase : pathBasename (pathJoin f n) = n := pathBasename_join f n hn
  have hjoin : pathJoin f n = f ++ "/" ++ n := by
    unfold pathJoin
    rw [if_neg]
    push_neg
    exact ⟨hfne, hfd⟩
  have hdir : pathDirname (pathJoin f n) = f := by
    rw [hjoin]
    exact pathDirname_append f n hf hn
  unfold extractNotificationCode
  rw [hbase, hdir, pathBasename_noSlash f hfns]
  simp only [hcrm]

/-- Folder fallback for every folder name containing `ПТП` or `ТТП` and
none of the vocabulary prefixes that precede `П` in array order: the
*shorter* `П` is combined with the filename's number. -/
theorem folder_fallback_P (f n : String) (nm : List Char)
    (hf : goodName f = true) (hfd : f ≠ ".") (hn : goodName n = true)
    (hcrm : codeRegexMatch n.data = none)
    (hnm : firstNumberMatch n.data = some nm)
    (hlong : listContainsB "ПТП".data (jsUpperStr f).data = true
      ∨ listContainsB "ТТП".data (jsUpperStr f).data = true)
    (hSK : listContainsB "СК".data (jsUpperStr f).data = false)
    (hUA : listContainsB "УА".data (jsUpperStr f).data = false)
    (hSPPK : listContainsB "СППК".data (jsUpperStr f).data = false)
    (hSPD : listContainsB "СПД".data (jsUpperStr f).data = false)
    (hRVS : listContainsB "РВС".data (jsUpperStr f).data = false)
    (hPU : listContainsB "ПУ".data (jsUpperStr f).data = false) :
    extractNotificationCode (pathJoin f n)
      = some (jsUpperStr ("П" ++ "-" ++ String.mk nm)) := by
  have hP : listContainsB "П".data (jsUpperStr f).data = true := by
    rcases hlong with h | h
    · exact listContainsB_single (listContainsB_mem h (by decide))
    · exact listContainsB_single (listContainsB_mem h (by decide))
  have hfind : PREFIXES.find? (fun p => listContainsB p.data (jsUpperStr f).data)
      = some "П" := by
    show List.find? _ ("СК" :: "УА" :: "СППК" :: "СПД" :: "РВС" :: "ПУ" :: "П"
      :: "ГЗУ" :: "ПТП" :: "ТТП" :: "НА" :: []) = some "П"
    rw [List.find?_cons_of_neg _ (by simp [hSK]), List.find?_cons_of_neg _ (by simp [hUA]),
      List.find?_cons_of_neg _ (by simp [hSPPK]), List.find?_cons_of_neg _ (by simp [hSPD]),
      List.find?_cons_of_neg _ (by simp [hRVS]), List.find?_cons_of_neg _ (by simp [hPU]),
      List.find?_cons_of_pos _ (by simpa using hP)]
  rw [extractNotification_folder_fallback f n hf hfd hn hcrm, hfind, hnm]

/-- Folder fallback for folder names containing `СППК` (without `СК` or
`УА`): the *longer* `СППК` is returned. -/
theorem folder_fallback_SPPK (f n : String) (nm : List Char)
    (hf : goodName f = true) (hfd : f ≠ ".") (hn : goodName n = true)
    (hcrm : codeRegexMatch n.data = none)
    (hnm : firstNumberMatch n.data = some nm)
    (hlong : listContainsB "СППК".data (jsUpperStr f).data = true)
    (hSK : listContainsB "СК".data (jsUpperStr f).data = false)
    (hUA : listContainsB "УА".data (jsUpperStr f).data = false) :
    extractNotificationCode (pathJoin f n)
      = some (jsUpperStr ("СППК" ++ "-" ++ String.mk nm)) := by
  have hfind : PREFIXES.find? (fun p => listContainsB p.data (jsUpperStr f).data)
      = some "СППК" := by
    show List.find? _ ("СК" :: "УА" :: "СППК" :: "СПД" :: "РВС" :: "ПУ" :: "П"
      :: "ГЗУ" :: "ПТП" :: "ТТП" :: "НА" :: []) = some "СППК"
    rw [List.find?_cons_of_neg _ (by simp [hSK]), List.find?_cons_of_neg _ (by simp [hUA]),
      List.find?_cons_of_pos _ (by simpa using hlong)]
  rw [extractNotification_folder_fallback f n hf hfd hn hcrm, hfind, hnm]

/-- Folder fallback for folder names containing `СПД` (without `СК`,
`УА` or `СППК`): the *longer* `СПД` is returned. -/
theorem folder_fallback_SPD (f n : String) (nm : List Char)
    (hf : goodName f = true) (hfd : f ≠ ".") (hn : goodName n = true)
    (hcrm : codeRegexMatch n.data = none)
    (hnm : firstNumberMatch n.data = some nm)
    (hlong : listContainsB "СПД".data (jsUpperStr f).data = true)
    (hSK : listContainsB "СК".data (jsUpperStr f).data = false)
    (hUA : listContainsB "УА".data (jsUpperStr f).data = false)
    (hSPPK : listContainsB "СППК".data (jsUpperStr f).data = false) :
    extractNotificationCode (pathJoin f n)
      = some (jsUpperStr ("СПД" ++ "-" ++ String.mk nm)) := by
  have hfind : PREFIXES.find? (fun p => listContainsB p.data (jsUpperStr f).data)
      = some "СПД" := by
    show List.find? _ ("СК" :: "УА" :: "СППК" :: "СПД" :: "РВС" :: "ПУ" :: "П"
      :: "ГЗУ" :: "ПТП" :: "ТТП" :: "НА" :: []) = some "СПД"
    rw [List.find?_cons_of_neg _ (by simp [hSK]), List.find?_cons_of_neg _ (by simp [hUA]),
      List.find?_cons_of_neg _ (by simp [hSPPK]),
      List.find?_cons_of_pos _ (by simpa using hlong)]
  rw [extractNotification_folder_fallback f n hf hfd hn hcrm, hfind, hnm]

/-- C1 amended: (i) on the filename path the full prefix always wins, for
every input — whenever a vocabulary prefix matches at a position with
`-digits` following, the alternation (and hence both extractors, on
separator-free names with the code at the head) returns exactly that
prefix's code, so a shorter prefix can never shadow a longer valid one
regardless of alternation order; (ii) the parent-folder fallback instead
returns the *first prefix in vocabulary order* that is a substring of the
uppercased folder name: for every folder containing `ПТП` or `ТТП` (and
none of `СК`, `УА`, `СППК`, `СПД`, `РВС`, `ПУ`) it returns the shorter
`П`, while for every folder containing `СППК` (without `СК`/`УА`), or
`СПД` (without `СК`/`УА`/`СППК`), it returns that longer prefix. -/
theorem claim_C1_amended :
    (∀ (p : String), p ∈ PREFIXES → ∀ (s t : List Char),
      listPrefixCI p.data s = true →
      matchNumTail (s.drop p.data.length) = some t →
      matchCodeAt s = some (s.take p.data.length ++ t))
    ∧ (∀ (p : String), p ∈ PREFIXES → ∀ (s t : List Char), (∀ c ∈ s, c ≠ '/') →
      listPrefixCI p.data s = true →
      matchNumTail (s.drop p.data.length) = some t →
      extractZepbCode (String.mk s)
        = some (String.mk ((s.take p.data.length ++ t).map jsUpperChar))
      ∧ extractNotificationCode (String.mk s)
        = some (String.mk ((s.take p.data.length ++ t).map jsUpperChar)))
    ∧ (∀ (f n : String) (nm : List Char),
      goodName f = true → f ≠ "." → goodName n = true →
      codeRegexMatch n.data = none →
      firstNumberMatch n.data = some nm →
      (listContainsB "ПТП".data (jsUpperStr f).data = true
        ∨ listContainsB "ТТП".data (jsUpperStr f).data = true) →
      listContainsB "СК".data (jsUpperStr f).data = false →
      listContainsB "УА".data (jsUpperStr f).data = false →
      listContainsB "СППК".data (jsUpperStr f).data = false →
      listContainsB "СПД".data (jsUpperStr f).data = false →
      listContainsB "РВС".data (jsUpperStr f).data = false →
      listContainsB "ПУ".data (jsUpperStr f).data = false →
      extractNotificationCode (pathJoin f n)
        = some (jsUpperStr ("П" ++ "-" ++ String.mk nm)))
    ∧ (∀ (f n : String) (nm : List Char),
      goodName f = true → f ≠ "." → goodName n = true →
      codeRegexMatch n.data = none →
      firstNumberMatch n.data = some nm →
      listContainsB "СППК".data (jsUpperStr f).data = true →
      listContainsB "СК".data (jsUpperStr f).data = false →
      listContainsB "УА".data (jsUpperStr f).data = false →
      extractNotificationCode (pathJoin f n)
        = some (jsUpperStr ("СППК" ++ "-" ++ String.mk nm)))
    ∧ (∀ (f n : String) (nm : List Char),
      goodName f = true → f ≠ "." → goodName n = true →
      codeRegexMatch n.data = none →
      firstNumberMatch n.data = some nm →
      listContainsB "СПД".data (jsUpperStr f).data = true →
      listContainsB "СК".data (jsUpperStr f).data = false →
      listContainsB "УА".data (jsUpperStr f).data = false →
      listContainsB "СППК".data (jsUpperStr f).data = false →
      extractNotificationCode (pathJoin f n)
        = some (jsUpperStr ("СПД" ++ "-" ++ String.mk nm))) :=
  ⟨regex_alternation_full_code,
   fun p hp s t hs hpre ht => extract_code_at_head p hp s t hs hpre ht,
   folder_fallback_P,
   folder_fallback_SPPK,
   folder_fallback_SPD⟩

/-- Witness for C1 (amended) at concrete inputs: the regex path keeps the
full prefixes `ПТП` and `СППК`; the folder fallback yields `П-12` for a
`ПТП` folder and `ТТП` folder but `СППК-12`/`СПД-12` for those longer
folders. -/
theorem claim_C1_amended_witness :
    matchCodeAt "ПТП-5.pdf".data
      = some ("ПТП-5.pdf".data.take ("ПТП" : String).data.length ++ "-5".data)
    ∧ extractNotificationCode (String.mk "СППК-3.pdf".data)
      = some (String.mk (("СППК-3.pdf".data.take ("СППК" : String).data.length
          ++ "-3".data).map jsUpperChar))
    ∧ extractNotificationCode (pathJoin "ПТП" "12.pdf")
      = some (jsUpperStr ("П" ++ "-" ++ String.mk "12".data))
    ∧ extractNotificationCode (pathJoin "ТТП" "12.pdf")
      = some (jsUpperStr ("П" ++ "-" ++ String.mk "12".data))
    ∧ extractNotificationCode (pathJoin "СППК" "12.pdf")
      = some (jsUpperStr ("СППК" ++ "-" ++ String.mk "12".data))
    ∧ extractNotificationCode (pathJoin "СПД" "12.pdf")
      = some (jsUpperStr ("СПД" ++ "-" ++ String.mk "12".data)) :=
  ⟨claim_C1_amended.1 "ПТП" (by decide) "ПТП-5.pdf".data "-5".data (by decide) (by decide),
   (claim_C1_amended.2.1 "СППК" (by decide) "СППК-3.pdf".data "-3".data (by decide)
     (by decide) (by decide)).2,
   claim_C1_amended.2.2.1 "ПТП" "12.pdf" "12".data (by decide) (by decide) (by decide)
     (by decide) (by decide) (Or.inl (by decide)) (by decide) (by decide) (by decide)
     (by decide) (by decide) (by decide),
   claim_C1_amended.2.2.1 "ТТП" "12.pdf" "12".data (by decide) (by decide) (by decide)
     (by decide) (by decide) (Or.inr (by decide)) (by decide) (by decide) (by decide)
     (by decide) (by decide) (by decide),
   claim_C1_amended.2.2.2.1 "СППК" "12.pdf" "12".data (by decide) (by decide) (by decide)
     (by decide) (by decide) (by decide) (by decide) (by decide),
   claim_C1_amended.2.2.2.2 "СПД" "12.pdf" "12".data (by decide) (by decide) (by decide)
     (by decide) (by decide) (by decide) (by decide) (by decide) (by decide)⟩
